import Mathlib

/-!
Shallow embedding of the room session engine of `src/server/index.js`
(pearstopears multiplayer server).  JavaScript `Map`s become insertion-ordered
association lists, JS arrays become `List`s (with `push` appending and `pop`
taking the last element), and the randomness used by `shuffle`/`nanoid` is
threaded explicitly: the Fisher-Yates shuffle is a `Config` parameter and the
fresh ids produced by `nanoid` are arguments of the commands that consume them.
Every command handler returns the updated room together with the list of
messages it emits.
-/

set_option linter.unusedVariables false

namespace Pears

/-! ## Definitions: the engine shallowly embedded, with the concrete
fixture rooms used by witnesses and counterexamples -/

/-- A card as stored by the server: stable id, display text, tag list. -/
structure Card where
  id : String
  text : String
  tags : List String
deriving DecidableEq, Repr

/-- Per-player record inside a room (`PlayerState` in the source). -/
structure Player where
  id : String
  name : String
  score : Nat
  ready : Bool
  connected : Bool
  socketId : Option String
deriving DecidableEq, Repr

/-- One anonymous submission (`SubmissionState` in the source). -/
structure SubmissionState where
  id : String
  playerId : String
  card : Card
deriving DecidableEq, Repr

/-- Room phase; the source's typedef lists all six values, including the
transient `next_round` used by start/next/rematch before entering submit. -/
inductive Phase where
  | lobby
  | submit
  | judge_pick
  | score
  | next_round
  | game_over
deriving DecidableEq, Repr

/-- JS `Map.set`: replaces the (unique) entry with this key in place, else
appends a fresh entry at the end, preserving insertion order. -/
def mapSet {β : Type} : List (String × β) → String → β → List (String × β)
  | [], k, v => [(k, v)]
  | (k', v') :: rest, k, v =>
    if k' = k then (k, v) :: rest else (k', v') :: mapSet rest k v

/-- JS `Map.get` (first entry with the key). -/
def mapGet {β : Type} : List (String × β) → String → Option β
  | [], _ => none
  | (k', v') :: rest, k => if k' = k then some v' else mapGet rest k

/-- JS `Map.has`. -/
def mapHas {β : Type} (m : List (String × β)) (k : String) : Bool :=
  (mapGet m k).isSome

/-- JS `Map.values` (insertion order). -/
def mapValues {β : Type} (m : List (String × β)) : List β :=
  m.map (·.2)

/-- The full `RoomState` of the source. -/
structure Room where
  code : String
  hostPlayerId : String
  phase : Phase
  round : Nat
  judgeIndex : Nat
  submissions : List (String × SubmissionState)
  lastWinnerId : Option String
  winningSubmissionId : Option String
  players : List Player
  privateHands : List (String × List Card)
  redDeck : List Card
  redDiscard : List Card
  greenDeck : List Card
  greenDiscard : List Card
  currentGreenCard : Option Card
deriving DecidableEq, Repr

/-- Engine constants and external inputs: the card catalogs (the static data
files are outside the engine) and the shuffle permutation driven by
`Math.random` in `shuffle` (Fisher-Yates). -/
structure Config where
  shuffleFn : List Card → List Card
  redPool : List Card
  greenPool : List Card

def HAND_SIZE : Nat := 7

def WIN_SCORE : Nat := 10

/-- JS `String.prototype.trim`: strip whitespace from both ends (structural
re-implementation so terms evaluate). -/
def strTrim (s : String) : String :=
  String.mk (((s.data.dropWhile Char.isWhitespace).reverse.dropWhile
    Char.isWhitespace).reverse)

/-- First 24 characters, JS `slice(0, 24)`. -/
def strTake24 (s : String) : String :=
  String.mk (s.data.take 24)

/-- Code-unit lexicographic strict order on strings (the determinism given by
`localeCompare` in the source's tie break). -/
def charListLt : List Char → List Char → Bool
  | [], [] => false
  | [], _ :: _ => true
  | _ :: _, [] => false
  | a :: as, b :: bs => if a = b then charListLt as bs else decide (a < b)

def strLt (a b : String) : Bool :=
  charListLt a.data b.data

/-- `sanitizeName` of the source: trim, default, cap at 24. -/
def sanitizeName (input : String) : String :=
  let trimmed := strTrim input
  if trimmed = "" then "Player" else strTake24 trimmed

/-- `refillDeckFromDiscard`: when the draw pile is empty and the discard is
not, the discard is shuffled and becomes the new draw pile. -/
def refillDeckFromDiscard (shuffleFn : List Card → List Card)
    (deck discard : List Card) : List Card × List Card :=
  if deck.length > 0 ∨ discard.length = 0 then (deck, discard)
  else (deck ++ shuffleFn discard, [])

/-- `drawCard`: refill then `deck.pop()` (the last element of the JS array);
returns the remaining piles and the drawn card, `none` iff both piles were
empty. -/
def drawCard (shuffleFn : List Card → List Card) (deck discard : List Card) :
    List Card × List Card × Option Card :=
  let p := refillDeckFromDiscard shuffleFn deck discard
  match p.1.getLast? with
  | some c => (p.1.dropLast, p.2, some c)
  | none => (p.1, p.2, none)

def getPlayerBySocket (room : Room) (socketId : String) : Option Player :=
  room.players.find? (fun player => player.socketId = some socketId)

def getPlayerById (room : Room) (playerId : String) : Option Player :=
  room.players.find? (fun player => player.id = playerId)

def getConnectedPlayers (room : Room) : List Player :=
  room.players.filter (·.connected)

/-- The forward scan of `getJudge`: starting at the given offset and trying
`remaining` further offsets, return the first index
`(judgeIndex + offset) % players.length` holding a connected player,
together with that player. -/
def judgeScan (players : List Player) (judgeIndex : Nat) :
    Nat → Nat → Option (Nat × Player)
  | _offset, 0 => none
  | offset, remaining + 1 =>
    let index := (judgeIndex + offset) % players.length
    match players.get? index with
    | some candidate =>
      if candidate.connected then some (index, candidate)
      else judgeScan players judgeIndex (offset + 1) remaining
    | none => none

/-- `getJudge`: scans forward from the stored judge index for the first
connected player, writing the found seat back into `judgeIndex`. -/
def getJudge (room : Room) : Room × Option Player :=
  if room.players.length = 0 then (room, none)
  else
    match judgeScan room.players room.judgeIndex 0 room.players.length with
    | some found => ({ room with judgeIndex := found.1 }, some found.2)
    | none => (room, none)

/-- `getNextJudgeIndex`: scans steps `1 .. players.length` forward from the
stored index for a connected player; the stored index if none is connected. -/
def getNextJudgeIndex (room : Room) : Nat :=
  if room.players.length = 0 then 0
  else
    match judgeScan room.players room.judgeIndex 1 room.players.length with
    | some found => found.1
    | none => room.judgeIndex

/-- Leaderboard entry of the public snapshot. -/
structure LeaderboardEntry where
  id : String
  name : String
  score : Nat
deriving DecidableEq, Repr

/-- The sort comparator of `toLeaderboard`: `a` strictly precedes `b` when it
has the higher score, or equal score and lexicographically smaller name. -/
def playerBefore (a b : Player) : Bool :=
  if a.score = b.score then strLt a.name b.name else decide (b.score < a.score)

/-- Stable insertion into a sorted leaderboard prefix. -/
def insertLeaderboard (a : Player) : List Player → List Player
  | [] => [a]
  | b :: rest =>
    if playerBefore b a then b :: insertLeaderboard a rest else a :: b :: rest

/-- Stable sort by `playerBefore` (JS `Array.prototype.sort` is stable, so any
stable sort realises the same function). -/
def sortLeaderboard : List Player → List Player
  | [] => []
  | a :: rest => insertLeaderboard a (sortLeaderboard rest)

/-- `toLeaderboard`: stable sort by score descending, name ascending. -/
def toLeaderboard (players : List Player) : List LeaderboardEntry :=
  (sortLeaderboard players).map
    (fun player => { id := player.id, name := player.name, score := player.score })

/-- `initDecks`: rebuild both decks from the full catalogs, clear discards and
the current green card. -/
def initDecks (cfg : Config) (room : Room) : Room :=
  { room with
    redDeck := cfg.shuffleFn cfg.redPool
    redDiscard := []
    greenDeck := cfg.shuffleFn cfg.greenPool
    greenDiscard := []
    currentGreenCard := none }

/-- `ensurePlayerHand`: create an empty hand entry if missing; returns the
updated room and the player's hand. -/
def ensurePlayerHand (room : Room) (playerId : String) : Room × List Card :=
  match mapGet room.privateHands playerId with
  | some hand => (room, hand)
  | none =>
    ({ room with privateHands := mapSet room.privateHands playerId [] }, [])

/-- The `while (hand.length < HAND_SIZE)` loop of `dealToHandSize` for one
player, with explicit fuel (at most `HAND_SIZE` iterations ever run). -/
def fillHand (shuffleFn : List Card → List Card) :
    Nat → List Card → List Card → List Card →
    List Card × List Card × List Card
  | 0, deck, discard, hand => (deck, discard, hand)
  | fuel + 1, deck, discard, hand =>
    if hand.length < HAND_SIZE then
      let d := drawCard shuffleFn deck discard
      match d.2.2 with
      | some card => fillHand shuffleFn fuel d.1 d.2.1 (hand ++ [card])
      | none => (d.1, d.2.1, hand)
    else (deck, discard, hand)

/-- One iteration of the `forEach` in `dealToHandSize`: top up one player's
hand from the red piles. -/
def dealStep (cfg : Config) (r : Room) (player : Player) : Room :=
  let r₁ := (ensurePlayerHand r player.id).1
  let hand := (ensurePlayerHand r player.id).2
  let filled := fillHand cfg.shuffleFn HAND_SIZE r₁.redDeck r₁.redDiscard hand
  { r₁ with
    redDeck := filled.1
    redDiscard := filled.2.1
    privateHands := mapSet r₁.privateHands player.id filled.2.2 }

/-- `dealToHandSize`: every player is dealt red cards up to `HAND_SIZE`,
best effort. -/
def dealToHandSize (cfg : Config) (room : Room) : Room :=
  room.players.foldl (dealStep cfg) room

/-- `removeCardFromHand`: linear lookup by card id; removes and returns the
card, `none` (hand untouched, empty hand entry possibly created) if absent. -/
def removeCardFromHand (room : Room) (playerId : String) (cardId : String) :
    Room × Option Card :=
  let p := ensurePlayerHand room playerId
  match p.2.findIdx? (fun entry => entry.id = cardId) with
  | some cardIndex =>
    match p.2.get? cardIndex with
    | some card =>
      ({ p.1 with
          privateHands := mapSet p.1.privateHands playerId (p.2.eraseIdx cardIndex) },
        some card)
    | none => (p.1, none)
  | none => (p.1, none)

/-- `drawGreenForRound`. -/
def drawGreenForRound (cfg : Config) (room : Room) : Room :=
  let p := drawCard cfg.shuffleFn room.greenDeck room.greenDiscard
  { room with greenDeck := p.1, greenDiscard := p.2.1, currentGreenCard := p.2.2 }

/-- `resolveSubmitPhaseCompletion`: in the submit phase, once every connected
non-judge player has submitted (and there is at least one such player), move
to `judge_pick`.  Resolving the judge may normalize `judgeIndex`. -/
def resolveSubmitPhaseCompletion (room : Room) : Room :=
  if room.phase ≠ Phase.submit then room
  else
    let gj := getJudge room
    match gj.2 with
    | none => gj.1
    | some judge =>
      let expected :=
        ((getConnectedPlayers gj.1).filter (fun entry => entry.id ≠ judge.id)).length
      if expected > 0 ∧ gj.1.submissions.length ≥ expected then
        { gj.1 with phase := Phase.judge_pick }
      else gj.1

/-- Player entry of the public snapshot. -/
structure PubPlayer where
  id : String
  name : String
  score : Nat
  ready : Bool
  connected : Bool
  isHost : Bool
deriving DecidableEq, Repr

/-- Submission entry of the public snapshot: submission id, card id, card
text, and nothing else. -/
structure PubSubmission where
  id : String
  cardId : String
  cardText : String
deriving DecidableEq, Repr

/-- The public snapshot broadcast as `room:update`. -/
structure PublicSnapshot where
  roomCode : String
  phase : Phase
  round : Nat
  hostPlayerId : String
  judgePlayerId : Option String
  lastWinnerId : Option String
  winningSubmissionId : Option String
  greenCard : Option (String × String)
  submissionCount : Nat
  expectedSubmissionCount : Nat
  players : List PubPlayer
  leaderboard : List LeaderboardEntry
  winnerId : Option String
  submissions : List PubSubmission
deriving DecidableEq, Repr

/-- `toPublicRoomState`; resolving the judge may write `judgeIndex`, so the
projection returns the (possibly normalized) room as well. -/
def toPublicRoomState (room : Room) : Room × PublicSnapshot :=
  let gj := getJudge room
  let room' := gj.1
  let judgeOpt := gj.2
  let connectedPlayers := getConnectedPlayers room'
  let nonJudgeCount :=
    match judgeOpt with
    | some judge => (connectedPlayers.filter (fun player => player.id ≠ judge.id)).length
    | none => 0
  (room',
      { roomCode := room'.code
        phase := room'.phase
        round := room'.round
        hostPlayerId := room'.hostPlayerId
        judgePlayerId := judgeOpt.map (·.id)
        lastWinnerId := room'.lastWinnerId
        winningSubmissionId := room'.winningSubmissionId
        greenCard := room'.currentGreenCard.map (fun c => (c.id, c.text))
        submissionCount := room'.submissions.length
        expectedSubmissionCount := nonJudgeCount
        players := room'.players.map (fun player =>
          { id := player.id
            name := player.name
            score := player.score
            ready := player.ready
            connected := player.connected
            isHost := player.id = room'.hostPlayerId })
        leaderboard := toLeaderboard room'.players
        winnerId :=
          if room'.phase = Phase.game_over then
            (toLeaderboard room'.players).head?.map (·.id)
          else none
        submissions :=
          if room'.phase = Phase.judge_pick ∨ room'.phase = Phase.score ∨
              room'.phase = Phase.game_over then
            (mapValues room'.submissions).map (fun submission =>
              { id := submission.id
                cardId := submission.card.id
                cardText := submission.card.text })
          else [] })

/-- The private `player:state` payload. -/
structure PlayerView where
  roomCode : String
  playerId : String
  hand : List (String × String)
  submitted : Bool
deriving DecidableEq, Repr

/-- A message emitted by the engine: a broadcast snapshot, a private player
view, a join acknowledgement, or an error sent only to the issuing
connection. -/
inductive Emit where
  | update (snap : PublicSnapshot)
  | player (pid : String) (view : PlayerView)
  | joined (pid : String) (isHost : Bool) (rejoined : Bool)
  | err (msg : String)
deriving DecidableEq, Repr

/-- `emitPlayerState`: only for connected players with a live socket; may
create an empty hand entry via `ensurePlayerHand`. -/
def emitPlayerState (room : Room) (player : Player) : Room × List Emit :=
  if ¬player.connected ∨ player.socketId = none then (room, [])
  else
    let p := ensurePlayerHand room player.id
    (p.1,
      [Emit.player player.id
        { roomCode := p.1.code
          playerId := player.id
          hand := p.2.map (fun card => (card.id, card.text))
          submitted :=
            (mapValues p.1.submissions).any (fun entry => entry.playerId = player.id) }])

/-- `emitAllPlayerStates`. -/
def emitAllPlayerStates (room : Room) : Room × List Emit :=
  room.players.foldl
    (fun acc player =>
      let r := emitPlayerState acc.1 player
      (r.1, acc.2 ++ r.2))
    (room, [])

/-- `emitRoomUpdate`: one public snapshot plus the private player states. -/
def emitRoomUpdate (room : Room) : Room × List Emit :=
  let pub := toPublicRoomState room
  let priv := emitAllPlayerStates pub.1
  (priv.1, Emit.update pub.2 :: priv.2)

/-- `beginSubmitPhase`: enter submit, clear submissions and winner data,
discard the previous green card, draw a new one, redeal hands, broadcast. -/
def beginSubmitPhase (cfg : Config) (room : Room) : Room × List Emit :=
  let r₁ := { room with
    phase := Phase.submit
    submissions := []
    lastWinnerId := none
    winningSubmissionId := none }
  let r₂ :=
    match r₁.currentGreenCard with
    | some card => { r₁ with greenDiscard := r₁.greenDiscard ++ [card] }
    | none => r₁
  let r₃ := drawGreenForRound cfg r₂
  let r₄ := dealToHandSize cfg r₃
  emitRoomUpdate r₄

/-- Mutate the (first) player with the given id in place, as the JS handlers
do after a `find`. -/
def updateFirstPlayer : List Player → String → (Player → Player) → List Player
  | [], _, _ => []
  | p :: rest, pid, f =>
    if p.id = pid then f p :: rest else p :: updateFirstPlayer rest pid f

/-- The `room:join` handler, after the registry has resolved the room.
`newPlayerId` stands for the `nanoid(12)` generated for a fresh player. -/
def handleJoin (sid : String) (requestedPlayerId : Option String)
    (rawName : String) (newPlayerId : String) (room : Room) : Room × List Emit :=
  let playerName := sanitizeName rawName
  let existing :=
    match requestedPlayerId with
    | some pid => getPlayerById room pid
    | none => none
  match existing with
  | some existingPlayer =>
    let r₁ := { room with
      players := updateFirstPlayer room.players existingPlayer.id (fun q =>
        { q with
          connected := true
          socketId := some sid
          name := if playerName ≠ "Player" then playerName else q.name }) }
    let upd := emitRoomUpdate r₁
    (upd.1,
      Emit.joined existingPlayer.id (existingPlayer.id = room.hostPlayerId) true :: upd.2)
  | none =>
    if room.phase ≠ Phase.lobby then
      (room, [Emit.err "Game already started. New joins are limited to the lobby."])
    else
      let r₁ := { room with
        players := room.players ++
          [{ id := newPlayerId
             name := playerName
             score := 0
             ready := false
             connected := true
             socketId := some sid }] }
      let upd := emitRoomUpdate r₁
      (upd.1, Emit.joined newPlayerId (newPlayerId = r₁.hostPlayerId) false :: upd.2)

/-- The `room:ready` handler. -/
def handleReady (sid : String) (room : Room) : Room × List Emit :=
  match getPlayerBySocket room sid with
  | none => (room, [Emit.err "You are not joined to this room."])
  | some player =>
    emitRoomUpdate
      { room with
        players := updateFirstPlayer room.players player.id (fun q =>
          { q with ready := !q.ready }) }

/-- The `game:start` handler: host-only, needs two connected players; full
reset, transient `next_round` broadcast, then `beginSubmitPhase`. -/
def handleGameStart (cfg : Config) (sid : String) (room : Room) : Room × List Emit :=
  match getPlayerBySocket room sid with
  | none => (room, [Emit.err "You are not joined to this room."])
  | some player =>
    if player.id ≠ room.hostPlayerId then
      (room, [Emit.err "Only the host can start the game."])
    else if (getConnectedPlayers room).length < 2 then
      (room, [Emit.err "At least 2 connected players are required to start."])
    else
      let r₁ := { room with
        round := 1
        phase := Phase.next_round
        judgeIndex := 0
        submissions := []
        lastWinnerId := none
        winningSubmissionId := none
        privateHands := []
        players := room.players.map (fun (entry : Player) =>
          { entry with score := 0, ready := false }) }
      let r₂ := r₁.players.foldl (fun r entry => (ensurePlayerHand r entry.id).1) r₁
      let r₃ := initDecks cfg r₂
      let r₄ := dealToHandSize cfg r₃
      let upd := emitRoomUpdate r₄
      let beg := beginSubmitPhase cfg upd.1
      (beg.1, upd.2 ++ beg.2)

/-- The `round:submit` handler.  `subId` stands for the `nanoid(10)` generated
for the new submission. -/
def handleRoundSubmit (sid : String) (rawCardId : String) (subId : String)
    (room : Room) : Room × List Emit :=
  if room.phase ≠ Phase.submit then
    (room, [Emit.err "Submissions are not open."])
  else
    match getPlayerBySocket room sid with
    | none => (room, [Emit.err "You are not an active player in this room."])
    | some player =>
      if ¬player.connected then
        (room, [Emit.err "You are not an active player in this room."])
      else
        let gj := getJudge room
        let r₁ := gj.1
        match gj.2 with
        | none => (r₁, [Emit.err "No active judge available."])
        | some judge =>
          if player.id = judge.id then
            (r₁, [Emit.err "The judge cannot submit a card."])
          else if mapHas r₁.submissions player.id then
            (r₁, [Emit.err "You already submitted this round."])
          else
            let cardId := strTrim rawCardId
            if cardId = "" then
              (r₁, [Emit.err "Card id is required."])
            else
              let rc := removeCardFromHand r₁ player.id cardId
              let r₂ := rc.1
              match rc.2 with
              | none => (r₂, [Emit.err "Card must be in your hand."])
              | some card =>
                let r₃ := { r₂ with
                  submissions := mapSet r₂.submissions subId
                    { id := subId, playerId := player.id, card := card } }
                emitRoomUpdate (resolveSubmitPhaseCompletion r₃)

/-- The `round:judge_pick` handler. -/
def handleJudgePick (cfg : Config) (sid : String) (rawSubmissionId : String)
    (room : Room) : Room × List Emit :=
  if room.phase ≠ Phase.judge_pick then
    (room, [Emit.err "The room is not in judge pick phase."])
  else
    let gj := getJudge room
    let r₁ := gj.1
    let actingOpt := getPlayerBySocket r₁ sid
    match gj.2, actingOpt with
      | some judge, some actingPlayer =>
        if judge.id ≠ actingPlayer.id then
          (r₁, [Emit.err "Only the active judge can pick the winner."])
        else
          let submissionId := strTrim rawSubmissionId
          match mapGet r₁.submissions submissionId with
          | none => (r₁, [Emit.err "Winner must be one of the submitted cards."])
          | some winningSubmission =>
            match getPlayerById r₁ winningSubmission.playerId with
            | none => (r₁, [Emit.err "Winner not found."])
            | some winner =>
              let r₂ := { r₁ with
                redDiscard := r₁.redDiscard ++
                  (mapValues r₁.submissions).map (fun (s : SubmissionState) => s.card)
                winningSubmissionId := some submissionId
                players := updateFirstPlayer r₁.players winner.id (fun q =>
                  { q with score := q.score + 1 })
                lastWinnerId := some winner.id }
              if winner.score + 1 ≥ WIN_SCORE then
                emitRoomUpdate { r₂ with
                  phase := Phase.game_over
                  submissions := []
                  winningSubmissionId := none
                  currentGreenCard := none }
              else
                emitRoomUpdate (dealToHandSize cfg { r₂ with phase := Phase.score })
      | _, _ => (r₁, [Emit.err "Only the active judge can pick the winner."])

/-- The `round:next` handler. -/
def handleRoundNext (cfg : Config) (sid : String) (room : Room) : Room × List Emit :=
  if room.phase ≠ Phase.score then
    (room, [Emit.err "The room is not ready for the next round."])
  else
    match getPlayerBySocket room sid with
    | none => (room, [Emit.err "Only the host can advance to the next round."])
    | some actingPlayer =>
      if actingPlayer.id ≠ room.hostPlayerId then
        (room, [Emit.err "Only the host can advance to the next round."])
      else
        let r₁ := { room with judgeIndex := getNextJudgeIndex room }
        let r₂ := { r₁ with round := r₁.round + 1, phase := Phase.next_round }
        let upd := emitRoomUpdate r₂
        let beg := beginSubmitPhase cfg upd.1
        (beg.1, upd.2 ++ beg.2)

/-- The `game:rematch` handler: like `game:start` but only from `game_over`. -/
def handleRematch (cfg : Config) (sid : String) (room : Room) : Room × List Emit :=
  if room.phase ≠ Phase.game_over then
    (room, [Emit.err "Rematch is only available after game over."])
  else
    match getPlayerBySocket room sid with
    | none => (room, [Emit.err "Only the host can start a rematch."])
    | some actingPlayer =>
      if actingPlayer.id ≠ room.hostPlayerId then
        (room, [Emit.err "Only the host can start a rematch."])
      else if (getConnectedPlayers room).length < 2 then
        (room, [Emit.err "At least 2 connected players are required to rematch."])
      else
        let r₁ := { room with
          round := 1
          phase := Phase.next_round
          judgeIndex := 0
          submissions := []
          lastWinnerId := none
          winningSubmissionId := none
          privateHands := []
          players := room.players.map (fun (entry : Player) =>
            { entry with score := 0, ready := false }) }
        let r₂ := r₁.players.foldl (fun r entry => (ensurePlayerHand r entry.id).1) r₁
        let r₃ := initDecks cfg r₂
        let r₄ := dealToHandSize cfg r₃
        let upd := emitRoomUpdate r₄
        let beg := beginSubmitPhase cfg upd.1
        (beg.1, upd.2 ++ beg.2)

/-- The `disconnect` handler at room level (registry garbage collection is
outside the room state). -/
def handleDisconnect (playerId : String) (room : Room) : Room × List Emit :=
  match getPlayerById room playerId with
  | none => (room, [])
  | some player =>
    let r₁ := { room with
      players := updateFirstPlayer room.players player.id (fun q =>
        { q with connected := false, socketId := none, ready := false }) }
    let r₂ :=
      if r₁.hostPlayerId = player.id then
        match r₁.players.find? (·.connected) with
        | some nextHost => { r₁ with hostPlayerId := nextHost.id }
        | none =>
          match r₁.players.head? with
          | some nextHost => { r₁ with hostPlayerId := nextHost.id }
          | none => r₁
      else r₁
    emitRoomUpdate (resolveSubmitPhaseCompletion r₂)

/-- The commands a connection can issue against a resolved room, with the
fresh random ids they consume as explicit payload. -/
inductive Cmd where
  | join (sid : String) (playerId : Option String) (name : String) (newPlayerId : String)
  | ready (sid : String)
  | start (sid : String)
  | submit (sid : String) (cardId : String) (subId : String)
  | judgePick (sid : String) (submissionId : String)
  | nextRound (sid : String)
  | rematch (sid : String)
  | disconnect (playerId : String)

/-- Dispatch one command against a room. -/
def handle (cfg : Config) : Cmd → Room → Room × List Emit
  | Cmd.join sid pid name newPid, room => handleJoin sid pid name newPid room
  | Cmd.ready sid, room => handleReady sid room
  | Cmd.start sid, room => handleGameStart cfg sid room
  | Cmd.submit sid cardId subId, room => handleRoundSubmit sid cardId subId room
  | Cmd.judgePick sid subId, room => handleJudgePick cfg sid subId room
  | Cmd.nextRound sid, room => handleRoundNext cfg sid room
  | Cmd.rematch sid, room => handleRematch cfg sid room
  | Cmd.disconnect pid, room => handleDisconnect pid room

def mkCard (i : String) : Card := { id := i, text := i, tags := [] }

/-- Identity stands for one concrete Fisher-Yates outcome (the permutation
drawn when `Math.random` happens to fix every element). -/
def cfgW : Config :=
  { shuffleFn := fun l => l
    redPool := [mkCard "r0", mkCard "r1", mkCard "r2", mkCard "r3"]
    greenPool := [mkCard "g0", mkCard "g1"] }

def pW_A : Player :=
  { id := "A", name := "Ann", score := 0, ready := false, connected := true,
    socketId := some "sA" }

def pW_B : Player :=
  { id := "B", name := "Bob", score := 0, ready := false, connected := true,
    socketId := some "sB" }

def pW_C : Player :=
  { id := "C", name := "Cid", score := 0, ready := false, connected := true,
    socketId := some "sC" }

def pW_A_off : Player :=
  { pW_A with connected := false, socketId := none }

def baseRoom : Room :=
  { code := "ROOM", hostPlayerId := "A", phase := Phase.submit, round := 1,
    judgeIndex := 0, submissions := [], lastWinnerId := none,
    winningSubmissionId := none, players := [], privateHands := [],
    redDeck := [], redDiscard := [], greenDeck := [], greenDiscard := [],
    currentGreenCard := none }

def roomW9 : Room :=
  { baseRoom with players := [pW_A, pW_B] }

def roomW10 : Room := { baseRoom with players := [pW_A_off, pW_B] }

def roomW3 : Room :=
  { baseRoom with
    phase := Phase.judge_pick
    players := [pW_A, pW_B]
    submissions := [("sub1", { id := "sub1", playerId := "B", card := mkCard "r1" })] }

def roomW3b : Room := { roomW3 with phase := Phase.submit }

def roomW1 : Room :=
  { baseRoom with
    players := [pW_A, pW_B, pW_C]
    privateHands :=
      [("A", [mkCard "r0"]), ("B", [mkCard "r1", mkCard "r2"]), ("C", [mkCard "r3"])]
    greenDeck := [mkCard "g1"]
    currentGreenCard := some (mkCard "g0") }

def roomW6 : Room :=
  { baseRoom with phase := Phase.score, players := [pW_A, pW_B] }

def roomW5 : Room :=
  { baseRoom with phase := Phase.lobby, round := 0, players := [pW_A, pW_B] }

/-- The phases of the public snapshots in an emission list. -/
def snapshotPhases (es : List Emit) : List Phase :=
  es.filterMap (fun e =>
    match e with
    | Emit.update snap => some snap.phase
    | _ => none)

def roomW5b : Room := { baseRoom with phase := Phase.game_over }

def roomW4 : Room :=
  { baseRoom with
    players := [pW_A_off, pW_B, pW_C]
    privateHands := [("B", [mkCard "r1"])] }

/-- The dealt-hand guarantee: the player has a hand entry that reached the
target size unless the red supply ran dry. -/
def HandOk (r : Room) (pid : String) : Prop :=
  ∃ hand, mapGet r.privateHands pid = some hand ∧
    (HAND_SIZE ≤ hand.length ∨ (r.redDeck = [] ∧ r.redDiscard = []))

def roomW8 : Room :=
  { baseRoom with
    phase := Phase.score
    players := [pW_A, pW_B]
    greenDeck := [mkCard "g1"]
    currentGreenCard := some (mkCard "g0")
    submissions := [("sub1", { id := "sub1", playerId := "B", card := mkCard "r1" })]
    redDeck := [mkCard "r2", mkCard "r3"] }

/-- All cards currently held in private hands. -/
def handsCards (m : List (String × List Card)) : List Card :=
  (m.map (·.2)).flatten

/-- The cards wrapped in the active submissions. -/
def submissionCards (subs : List (String × SubmissionState)) : List Card :=
  subs.map (fun kv => kv.2.card)

/-- The red-card union of the claim as a multiset, counting submission cards
while they are live (submit and judge-pick phases); from `score` on the same
cards sit in the discard pile and the retained submission entries are
display-only. -/
def redZone (room : Room) : Multiset Card :=
  (room.redDeck : Multiset Card) + (room.redDiscard : Multiset Card) +
    (handsCards room.privateHands : Multiset Card) +
    (if room.phase = Phase.submit ∨ room.phase = Phase.judge_pick then
      (submissionCards room.submissions : Multiset Card)
    else 0)

/-- The green-card union of the claim: draw pile, discard pile and the
current green card. -/
def greenZone (room : Room) : Multiset Card :=
  (room.greenDeck : Multiset Card) + (room.greenDiscard : Multiset Card) +
    (room.currentGreenCard.toList : Multiset Card)

/-- The red-card union exactly as the claim states it, counting submission
cards in every phase. -/
def redUnionAll (room : Room) : Multiset Card :=
  (room.redDeck : Multiset Card) + (room.redDiscard : Multiset Card) +
    (handsCards room.privateHands : Multiset Card) +
    (submissionCards room.submissions : Multiset Card)

/-- Freshness of the submission id a submit command consumes (`nanoid`
collisions excluded). -/
def freshSub : Cmd → Room → Prop
  | Cmd.submit _ _ subId, room => mapHas room.submissions subId = false
  | _, _ => True

def pW_B9 : Player := { pW_B with score := 9 }

/-- A judge-pick room about to take the score transition: deck r3, A holds r0,
submissions hold r1 (from B) and r2 (from C). -/
def roomC2a : Room :=
  { baseRoom with
    phase := Phase.judge_pick
    players := [pW_A, pW_B, pW_C]
    privateHands := [("A", [mkCard "r0"])]
    submissions := [("s1", { id := "s1", playerId := "B", card := mkCard "r1" }),
                    ("s2", { id := "s2", playerId := "C", card := mkCard "r2" })]
    redDeck := [mkCard "r3"]
    greenDeck := [mkCard "g1"]
    currentGreenCard := some (mkCard "g0") }

/-- A judge-pick room about to take the game-over transition: B sits at nine
points, the current green card is g0. -/
def roomC2b : Room :=
  { baseRoom with
    phase := Phase.judge_pick
    players := [pW_A, pW_B9]
    privateHands := []
    submissions := [("s1", { id := "s1", playerId := "B", card := mkCard "r1" })]
    greenDeck := [mkCard "g1"]
    currentGreenCard := some (mkCard "g0") }

/-! ## Lemmas and claim theorems -/

theorem room_set_judgeIndex_self (room : Room) :
    { room with judgeIndex := room.judgeIndex } = room := rfl

/-- Soundness of the judge forward scan: a hit is a connected player sitting
at the first scanned seat whose player is connected. -/
theorem judgeScan_sound (players : List Player) (ji : Nat) :
    ∀ remaining offset i c,
      judgeScan players ji offset remaining = some (i, c) →
      players.get? i = some c ∧ c.connected = true ∧
      ∃ k, offset ≤ k ∧ k < offset + remaining ∧
        i = (ji + k) % players.length ∧
        ∀ m, offset ≤ m → m < k →
          ∀ c', players.get? ((ji + m) % players.length) = some c' →
            c'.connected = false := by
  intro remaining
  induction remaining with
  | zero =>
    intro offset i c h
    simp [judgeScan] at h
  | succ rem ih =>
    intro offset i c h
    rw [judgeScan] at h
    cases hg : players.get? ((ji + offset) % players.length) with
    | none => rw [hg] at h; exact absurd h (by simp)
    | some candidate =>
      rw [hg] at h
      dsimp only at h
      by_cases hc : candidate.connected
      · rw [if_pos hc] at h
        injection h with h1
        have hi : i = (ji + offset) % players.length := (congrArg Prod.fst h1).symm
        have hcand : c = candidate := (congrArg Prod.snd h1).symm
        subst hi; subst hcand
        refine ⟨hg, hc, offset, le_refl _, by omega, rfl, ?_⟩
        intro m hm1 hm2; omega
      · rw [if_neg hc] at h
        obtain ⟨h1, h2, k, hk1, hk2, hk3, hk4⟩ := ih (offset + 1) i c h
        refine ⟨h1, h2, k, by omega, by omega, hk3, ?_⟩
        intro m hm1 hm2 c' hc'
        rcases Nat.eq_or_lt_of_le hm1 with hme | hml
        · subst hme
          rw [hg] at hc'
          injection hc' with hc''
          subst hc''
          exact Bool.not_eq_true _ ▸ (by simpa using hc)
        · exact hk4 m hml hm2 c' hc'

/-- Completeness of the judge forward scan: if some scanned seat holds a
connected player, the scan succeeds. -/
theorem judgeScan_complete (players : List Player) (ji : Nat) :
    ∀ remaining offset,
      0 < players.length →
      (∃ k, offset ≤ k ∧ k < offset + remaining ∧
        ∃ c, players.get? ((ji + k) % players.length) = some c ∧ c.connected = true) →
      ∃ i c, judgeScan players ji offset remaining = some (i, c) := by
  intro remaining
  induction remaining with
  | zero =>
    intro offset _ ⟨k, hk1, hk2, _⟩
    omega
  | succ rem ih =>
    intro offset hlen hex
    rw [judgeScan]
    cases hg : players.get? ((ji + offset) % players.length) with
    | none =>
      have hlt : (ji + offset) % players.length < players.length := Nat.mod_lt _ hlen
      rw [List.get?_eq_get hlt] at hg
      simp at hg
    | some candidate =>
      dsimp only
      by_cases hc : candidate.connected
      · exact ⟨_, _, by rw [if_pos hc]⟩
      · rw [if_neg hc]
        apply ih (offset + 1) hlen
        obtain ⟨k, hk1, hk2, c, hcg, hcc⟩ := hex
        have hkne : k ≠ offset := by
          intro he; subst he
          rw [hg] at hcg
          injection hcg with he2
          subst he2
          exact hc (by simpa using hcc)
        exact ⟨k, by omega, by omega, c, hcg, hcc⟩

/-- Every seat `q` is reached by some scan offset `k < len`. -/
theorem exists_scan_offset (len ji q : Nat) (hlen : 0 < len) (hq : q < len) :
    ∃ k, k < len ∧ (ji + k) % len = q := by
  refine ⟨(q + len - ji % len) % len, Nat.mod_lt _ hlen, ?_⟩
  have hr : ji % len < len := Nat.mod_lt _ hlen
  calc (ji + (q + len - ji % len) % len) % len
      = (ji % len + (q + len - ji % len) % len) % len := by
        rw [Nat.mod_add_mod]
    _ = (ji % len + (q + len - ji % len)) % len := by
        rw [Nat.add_mod_mod]
    _ = (q + len) % len := by
        congr 1; omega
    _ = q % len := Nat.add_mod_right q len
    _ = q := Nat.mod_eq_of_lt hq

/-- If no player is connected the judge scan fails. -/
theorem judgeScan_none (players : List Player) (ji : Nat)
    (hnone : ∀ p ∈ players, p.connected = false) :
    ∀ remaining offset, judgeScan players ji offset remaining = none := by
  intro remaining
  induction remaining with
  | zero => intro offset; rfl
  | succ rem ih =>
    intro offset
    rw [judgeScan]
    cases hg : players.get? ((ji + offset) % players.length) with
    | none => rfl
    | some candidate =>
      dsimp only
      have hmem : candidate ∈ players := List.get?_mem hg
      rw [if_neg (by simp [hnone candidate hmem])]
      exact ih (offset + 1)

/-- Judge resolution touches at most `judgeIndex`. -/
theorem getJudge_frame (room : Room) :
    (getJudge room).1 = { room with judgeIndex := (getJudge room).1.judgeIndex } := by
  unfold getJudge
  split
  · rfl
  · split <;> rfl

/-- A successful scan determines the result of `getJudge`. -/
theorem getJudge_eq_of_scan (room : Room) (i : Nat) (judge : Player)
    (h : judgeScan room.players room.judgeIndex 0 room.players.length = some (i, judge)) :
    getJudge room = ({ room with judgeIndex := i }, some judge) := by
  unfold getJudge
  have hlen : ¬room.players.length = 0 := by
    intro h0
    rw [h0] at h
    exact absurd h (by rw [judgeScan]; simp)
  rw [if_neg hlen, h]

/-- When at least one player is connected, the scan of `getJudge` succeeds. -/
theorem getJudge_scan_succeeds (room : Room)
    (hconn : ∃ p ∈ room.players, p.connected = true) :
    ∃ i judge,
      judgeScan room.players room.judgeIndex 0 room.players.length = some (i, judge) := by
  obtain ⟨p, hp, hpc⟩ := hconn
  have hlen : 0 < room.players.length := List.length_pos.mpr (by
    intro he; rw [he] at hp; simp at hp)
  obtain ⟨q, hq⟩ := List.get?_of_mem hp
  have hqlt : q < room.players.length := by
    obtain ⟨h, _⟩ := List.get?_eq_some.mp hq
    exact h
  obtain ⟨k, hk, hkq⟩ :=
    exists_scan_offset room.players.length room.judgeIndex q hlen hqlt
  exact judgeScan_complete room.players room.judgeIndex room.players.length 0 hlen
    ⟨k, Nat.zero_le _, by omega, p, by rw [hkq]; exact hq, hpc⟩

/-- If no player is connected, `getJudge` returns `none` and leaves the room
untouched. -/
theorem getJudge_none (room : Room)
    (hnone : ∀ p ∈ room.players, p.connected = false) :
    getJudge room = (room, none) := by
  unfold getJudge
  by_cases h0 : room.players.length = 0
  · rw [if_pos h0]
  · rw [if_neg h0, judgeScan_none room.players room.judgeIndex hnone]

/-- When the stored index itself holds a connected player, `getJudge` returns
it and does not move the pointer. -/
theorem getJudge_stored (room : Room) (judge : Player)
    (hlt : room.judgeIndex < room.players.length)
    (hg : room.players.get? room.judgeIndex = some judge)
    (hc : judge.connected = true) :
    getJudge room = (room, some judge) := by
  have hlen : 0 < room.players.length := by omega
  obtain ⟨rem, hrem⟩ :=
    Nat.exists_eq_succ_of_ne_zero (Nat.pos_iff_ne_zero.mp hlen)
  have hscan : judgeScan room.players room.judgeIndex 0 room.players.length =
      some (room.judgeIndex, judge) := by
    rw [hrem, judgeScan]
    have hmod : (room.judgeIndex + 0) % room.players.length = room.judgeIndex := by
      rw [Nat.add_zero]
      exact Nat.mod_eq_of_lt hlt
    rw [hmod, hg]
    dsimp only
    rw [if_pos hc]
  have h := getJudge_eq_of_scan room _ _ hscan
  rw [room_set_judgeIndex_self] at h
  exact h

/-- C7: for every room with a connected player, judge resolution scans forward
from the stored judge index (wrapping around seat order), returns the first
connected player, and updates the stored index to that player's seat; it
returns the player at the stored index itself when that player is
connected. -/
theorem C7_judge_resolution (room : Room)
    (hconn : ∃ p ∈ room.players, p.connected = true) :
    (∃ i judge,
      getJudge room = ({ room with judgeIndex := i }, some judge) ∧
      room.players.get? i = some judge ∧ judge.connected = true ∧
      ∃ k, i = (room.judgeIndex + k) % room.players.length ∧
        ∀ m, m < k →
          ∀ c, room.players.get? ((room.judgeIndex + m) % room.players.length) = some c →
            c.connected = false) ∧
    (∀ judge, room.judgeIndex < room.players.length →
      room.players.get? room.judgeIndex = some judge → judge.connected = true →
      getJudge room = (room, some judge)) := by
  constructor
  · obtain ⟨i, judge, hscan⟩ := getJudge_scan_succeeds room hconn
    obtain ⟨hget, hcc, k, _, _, hik, hfirst⟩ :=
      judgeScan_sound room.players room.judgeIndex room.players.length 0 i judge hscan
    exact ⟨i, judge, getJudge_eq_of_scan room i judge hscan, hget, hcc, k, hik,
      fun m hm c hc => hfirst m (Nat.zero_le _) hm c hc⟩
  · intro judge hlt hg hc
    exact getJudge_stored room judge hlt hg hc

theorem room_set_privateHands_self (room : Room) :
    { room with privateHands := room.privateHands } = room := rfl

/-- The room component of the projection is exactly the judge-normalized
room. -/
theorem toPublicRoomState_fst (room : Room) :
    (toPublicRoomState room).1 = (getJudge room).1 := by
  unfold toPublicRoomState
  rcases hgj : getJudge room with ⟨room', jo⟩
  rfl

/-- The snapshot reports the (unchanged) phase of the room. -/
theorem toPublicRoomState_snd_phase (room : Room) :
    (toPublicRoomState room).2.phase = room.phase := by
  unfold toPublicRoomState
  rcases hgj : getJudge room with ⟨room', jo⟩
  have hfr : room' = { room with judgeIndex := room'.judgeIndex } := by
    have h := getJudge_frame room
    rw [hgj] at h
    exact h
  dsimp only
  rw [hfr]

theorem ensurePlayerHand_fst (room : Room) (pid : String) :
    ∃ h, (ensurePlayerHand room pid).1 = { room with privateHands := h } := by
  unfold ensurePlayerHand
  cases hm : mapGet room.privateHands pid with
  | some hand => exact ⟨room.privateHands, by rw [room_set_privateHands_self]⟩
  | none => exact ⟨_, rfl⟩

theorem emitPlayerState_fst (room : Room) (player : Player) :
    ∃ h, (emitPlayerState room player).1 = { room with privateHands := h } := by
  unfold emitPlayerState
  split
  · exact ⟨room.privateHands, by rw [room_set_privateHands_self]⟩
  · obtain ⟨h, hh⟩ := ensurePlayerHand_fst room player.id
    exact ⟨h, by rw [← hh]⟩

theorem emitAllPlayerStates_fst (room : Room) :
    ∃ h, (emitAllPlayerStates room).1 = { room with privateHands := h } := by
  unfold emitAllPlayerStates
  suffices hgen : ∀ (ps : List Player) (r : Room) (acc : List Emit),
      ∃ h, (ps.foldl (fun acc player =>
        let r := emitPlayerState acc.1 player
        (r.1, acc.2 ++ r.2)) (r, acc)).1 = { r with privateHands := h } by
    exact hgen room.players room []
  intro ps
  induction ps with
  | nil =>
    intro r acc
    exact ⟨r.privateHands, by rw [List.foldl_nil, room_set_privateHands_self]⟩
  | cons p rest ih =>
    intro r acc
    rw [List.foldl_cons]
    obtain ⟨h₁, hh₁⟩ := emitPlayerState_fst r p
    obtain ⟨h₂, hh₂⟩ := ih (emitPlayerState r p).1 (acc ++ (emitPlayerState r p).2)
    refine ⟨h₂, ?_⟩
    rw [hh₂, hh₁]

theorem emitRoomUpdate_fst (room : Room) :
    ∃ j h, (emitRoomUpdate room).1 =
      { room with judgeIndex := j, privateHands := h } := by
  unfold emitRoomUpdate
  obtain ⟨h, hh⟩ := emitAllPlayerStates_fst (toPublicRoomState room).1
  refine ⟨(toPublicRoomState room).1.judgeIndex, h, ?_⟩
  dsimp only
  rw [hh, toPublicRoomState_fst, getJudge_frame room]

theorem dealToHandSize_eq (cfg : Config) (room : Room) :
    ∃ rd rdd h, dealToHandSize cfg room =
      { room with redDeck := rd, redDiscard := rdd, privateHands := h } := by
  unfold dealToHandSize
  suffices hgen : ∀ (ps : List Player) (r : Room),
      ∃ rd rdd h, (ps.foldl (dealStep cfg) r) =
      { r with redDeck := rd, redDiscard := rdd, privateHands := h } by
    exact hgen room.players room
  intro ps
  induction ps with
  | nil =>
    intro r
    exact ⟨r.redDeck, r.redDiscard, r.privateHands, rfl⟩
  | cons p rest ih =>
    intro r
    rw [List.foldl_cons]
    obtain ⟨rd, rdd, h₂, hh₂⟩ := ih (dealStep cfg r p)
    refine ⟨rd, rdd, h₂, ?_⟩
    rw [hh₂]
    unfold dealStep
    obtain ⟨h₁, hh₁⟩ := ensurePlayerHand_fst r p.id
    rw [hh₁]

/-- C9: in the submit phase, completion fires exactly when the count of
connected non-judge players is positive and the submissions count has reached
it; in particular a submit-phase room with zero submissions (for example one
whose only connected player is the judge) stays in submit. -/
theorem C9_no_zero_submission_advance (room : Room)
    (hphase : room.phase = Phase.submit) :
    ((resolveSubmitPhaseCompletion room).phase = Phase.judge_pick ↔
      ∃ judge, (getJudge room).2 = some judge ∧
        0 < ((getConnectedPlayers room).filter (fun entry => entry.id ≠ judge.id)).length ∧
        ((getConnectedPlayers room).filter (fun entry => entry.id ≠ judge.id)).length ≤
          room.submissions.length) ∧
    (room.submissions = [] →
      (resolveSubmitPhaseCompletion room).phase = Phase.submit) := by
  unfold resolveSubmitPhaseCompletion
  rcases hgj : getJudge room with ⟨room', jo⟩
  have hfr : room' = { room with judgeIndex := room'.judgeIndex } := by
    have h := getJudge_frame room
    rw [hgj] at h
    exact h
  have hpl : getConnectedPlayers room' = getConnectedPlayers room := by
    unfold getConnectedPlayers
    rw [hfr]
  have hsub : room'.submissions = room.submissions := by rw [hfr]
  have hph : room'.phase = room.phase := by rw [hfr]
  rw [hphase, if_neg (by simp)]
  dsimp only
  cases jo with
  | none =>
    dsimp only
    constructor
    · constructor
      · intro h
        rw [hph, hphase] at h
        exact absurd h (by simp)
      · rintro ⟨judge, hj, -, -⟩
        exact absurd hj (by simp)
    · intro _
      rw [hph, hphase]
  | some judge =>
    dsimp only
    rw [hpl, hsub]
    by_cases hcond :
        0 < ((getConnectedPlayers room).filter (fun entry => entry.id ≠ judge.id)).length ∧
          ((getConnectedPlayers room).filter (fun entry => entry.id ≠ judge.id)).length ≤
            room.submissions.length
    · rw [if_pos hcond]
      constructor
      · constructor
        · intro _
          exact ⟨judge, rfl, hcond.1, hcond.2⟩
        · intro _
          rfl
      · intro hempty
        exfalso
        rw [hempty] at hcond
        have h1 := hcond.1
        have h2 := hcond.2
        simp only [List.length_nil, Nat.le_zero] at h2
        omega
    · rw [if_neg hcond]
      constructor
      · constructor
        · intro h
          rw [hph, hphase] at h
          exact absurd h (by simp)
        · rintro ⟨judge', hj, h1, h2⟩
          have hjj : judge' = judge := by
            injection hj with h
            exact h.symm
          subst hjj
          exact absurd ⟨h1, h2⟩ hcond
      · intro _
        rw [hph, hphase]

/-- Witness for C9: a submit-phase room whose only submissions list is empty
stays in submit, and the completion criterion is the stated one. -/
theorem C9_no_zero_submission_advance_witness :
    ((resolveSubmitPhaseCompletion roomW9).phase = Phase.judge_pick ↔
      ∃ judge, (getJudge roomW9).2 = some judge ∧
        0 < ((getConnectedPlayers roomW9).filter (fun entry => entry.id ≠ judge.id)).length ∧
        ((getConnectedPlayers roomW9).filter (fun entry => entry.id ≠ judge.id)).length ≤
          roomW9.submissions.length) ∧
    (roomW9.submissions = [] →
      (resolveSubmitPhaseCompletion roomW9).phase = Phase.submit) :=
  C9_no_zero_submission_advance roomW9 (by decide)

/-- C10: producing the public snapshot is not a pure read: it invokes judge
resolution, which may write `judgeIndex` (to a seat holding a connected
player), while every other room field is unchanged; a room where the write
actually happens exists. -/
theorem C10_snapshot_judge_write :
    (∀ room : Room, (toPublicRoomState room).1 =
      { room with judgeIndex := (toPublicRoomState room).1.judgeIndex }) ∧
    (∀ room : Room, (toPublicRoomState room).1.judgeIndex ≠ room.judgeIndex →
      ∃ judge,
        room.players.get? ((toPublicRoomState room).1.judgeIndex) = some judge ∧
        judge.connected = true) ∧
    (∃ room : Room, (toPublicRoomState room).1.judgeIndex ≠ room.judgeIndex) := by
  have hfst : ∀ room : Room, (toPublicRoomState room).1 = (getJudge room).1 :=
    fun room => rfl
  refine ⟨?_, ?_, ?_⟩
  · intro room
    rw [hfst]
    exact getJudge_frame room
  · intro room hne
    rw [hfst] at hne ⊢
    by_cases h0 : room.players.length = 0
    · exfalso
      apply hne
      unfold getJudge
      rw [if_pos h0]
    · cases hscan : judgeScan room.players room.judgeIndex 0 room.players.length with
      | none =>
        exfalso
        apply hne
        unfold getJudge
        rw [if_neg h0, hscan]
      | some found =>
        obtain ⟨i, judge⟩ := found
        have heq := getJudge_eq_of_scan room i judge hscan
        rw [heq]
        obtain ⟨hget, hcc, -⟩ :=
          judgeScan_sound room.players room.judgeIndex room.players.length 0 i judge hscan
        exact ⟨judge, hget, hcc⟩
  · exact ⟨roomW10, by decide⟩

/-- Witness for C10: the write happens at a concrete room whose stored seat is
disconnected, and lands on a connected seat. -/
theorem C10_snapshot_judge_write_witness :
    ∃ judge,
      roomW10.players.get? ((toPublicRoomState roomW10).1.judgeIndex) = some judge ∧
      judge.connected = true :=
  C10_snapshot_judge_write.2.1 roomW10 (by decide)

/-- C3: no snapshot submission entry carries a player identity: in lobby or
submit phase the published list is empty, and in every phase each published
entry is exactly the (submission id, card id, card text) projection of a
stored submission; the winner identity travels only in the separate
`lastWinnerId` field, which the snapshot copies verbatim. -/
theorem C3_anonymity (room : Room) :
    ((toPublicRoomState room).2.phase = Phase.lobby ∨
      (toPublicRoomState room).2.phase = Phase.submit →
      (toPublicRoomState room).2.submissions = []) ∧
    (∀ entry ∈ (toPublicRoomState room).2.submissions,
      ∃ kv ∈ room.submissions,
        entry = { id := kv.2.id, cardId := kv.2.card.id, cardText := kv.2.card.text }) ∧
    (toPublicRoomState room).2.lastWinnerId = room.lastWinnerId := by
  unfold toPublicRoomState
  rcases hgj : getJudge room with ⟨room', jo⟩
  have hfr : room' = { room with judgeIndex := room'.judgeIndex } := by
    have h := getJudge_frame room
    rw [hgj] at h
    exact h
  have hsub : room'.submissions = room.submissions := by rw [hfr]
  have hlast : room'.lastWinnerId = room.lastWinnerId := by rw [hfr]
  dsimp only
  refine ⟨?_, ?_, hlast⟩
  · intro hcase
    have hnc : ¬(room'.phase = Phase.judge_pick ∨ room'.phase = Phase.score ∨
        room'.phase = Phase.game_over) := by
      rcases hcase with h | h <;> rw [h] <;> simp
    rw [if_neg hnc]
  · intro entry hentry
    by_cases hc : room'.phase = Phase.judge_pick ∨ room'.phase = Phase.score ∨
        room'.phase = Phase.game_over
    · rw [if_pos hc] at hentry
      simp only [mapValues] at hentry
      obtain ⟨sub, hsubmem, hentryeq⟩ := List.mem_map.mp hentry
      obtain ⟨kv, hkvmem, hkveq⟩ := List.mem_map.mp hsubmem
      rw [hsub] at hkvmem
      refine ⟨kv, hkvmem, ?_⟩
      rw [← hentryeq, hkveq]
    · rw [if_neg hc] at hentry
      exact absurd hentry (List.not_mem_nil entry)

/-- Witness for C3: a revealed entry of a concrete judge-pick room is the
identity-free projection of a stored submission, and the same room in the
submit phase publishes no submissions at all. -/
theorem C3_anonymity_witness :
    (∃ kv ∈ roomW3.submissions,
      ({ id := "sub1", cardId := "r1", cardText := "r1" } : PubSubmission) =
        { id := kv.2.id, cardId := kv.2.card.id, cardText := kv.2.card.text }) ∧
    (toPublicRoomState roomW3b).2.submissions = [] :=
  ⟨(C3_anonymity roomW3).2.1
      { id := "sub1", cardId := "r1", cardText := "r1" } (by decide),
    (C3_anonymity roomW3b).1 (by decide)⟩

/-- C1 (code bug): the duplicate-submission guard tests
`submissions.has(player.id)`, but the map is keyed by the freshly generated
submission id, so the guard never fires.  At a concrete submit-phase room with
judge A and players B, C, player B submits twice: neither command emits an
error, the submissions map ends with two entries whose playerId is "B", and
the phase even advances to judge_pick although C never submitted. -/
theorem C1_double_submission_accepted :
    ((handleRoundSubmit "sB" "r1" "sub1" roomW1).2.filter
      (fun e => match e with | Emit.err _ => true | _ => false)) = [] ∧
    ((handleRoundSubmit "sB" "r2" "sub2"
        (handleRoundSubmit "sB" "r1" "sub1" roomW1).1).2.filter
      (fun e => match e with | Emit.err _ => true | _ => false)) = [] ∧
    ((mapValues (handleRoundSubmit "sB" "r2" "sub2"
        (handleRoundSubmit "sB" "r1" "sub1" roomW1).1).1.submissions).map
      (fun s => s.playerId)) = ["B", "B"] ∧
    (handleRoundSubmit "sB" "r2" "sub2"
      (handleRoundSubmit "sB" "r1" "sub1" roomW1).1).1.phase = Phase.judge_pick := by
  decide

/-- C6 (code bug): when both green piles are empty and there is no current
green card, `beginSubmitPhase` surfaces nothing: the room silently enters the
submit phase with `currentGreenCard = none`, an ordinary room update is
broadcast, and no error or distinct "no cards remain" signal is emitted (the
emission type of the engine has no such signal at all). -/
theorem C6_green_exhaustion_silent :
    (beginSubmitPhase cfgW roomW6).1.phase = Phase.submit ∧
    (beginSubmitPhase cfgW roomW6).1.currentGreenCard = none ∧
    (beginSubmitPhase cfgW roomW6).1.greenDeck = [] ∧
    (beginSubmitPhase cfgW roomW6).1.greenDiscard = [] ∧
    ((beginSubmitPhase cfgW roomW6).2.filter
      (fun e => match e with | Emit.err _ => true | _ => false)) = [] ∧
    ((beginSubmitPhase cfgW roomW6).2.filter
      (fun e => match e with | Emit.update _ => true | _ => false)).length = 1 := by
  decide

/-- C5 counterexample: a successful start-game at a concrete two-player lobby
room broadcasts two public snapshots, and the first carries the transient
phase `next_round`, which lies outside the claimed five-phase set. -/
theorem C5_next_round_snapshot_counterexample :
    ((handleGameStart cfgW "sA" roomW5).2.filterMap
      (fun e => match e with | Emit.update s => some s.phase | _ => none)) =
      [Phase.next_round, Phase.submit] ∧
    Phase.next_round ∉
      [Phase.lobby, Phase.submit, Phase.judge_pick, Phase.score, Phase.game_over] := by
  decide

theorem emitRoomUpdate_fst_phase (room : Room) :
    (emitRoomUpdate room).1.phase = room.phase := by
  obtain ⟨j, h, hh⟩ := emitRoomUpdate_fst room
  rw [hh]

theorem dealToHandSize_phase (cfg : Config) (room : Room) :
    (dealToHandSize cfg room).phase = room.phase := by
  obtain ⟨rd, rdd, h, hh⟩ := dealToHandSize_eq cfg room
  rw [hh]

theorem ensurePlayerHand_fst_phase (room : Room) (pid : String) :
    (ensurePlayerHand room pid).1.phase = room.phase := by
  obtain ⟨h, hh⟩ := ensurePlayerHand_fst room pid
  rw [hh]

theorem removeCardFromHand_fst_phase (room : Room) (pid cid : String) :
    (removeCardFromHand room pid cid).1.phase = room.phase := by
  unfold removeCardFromHand
  have h := ensurePlayerHand_fst_phase room pid
  dsimp only
  split
  · split
    · exact h
    · exact h
  · exact h

theorem getJudge_fst_phase (room : Room) :
    (getJudge room).1.phase = room.phase := by
  rw [getJudge_frame room]

theorem beginSubmitPhase_fst_phase (cfg : Config) (room : Room) :
    (beginSubmitPhase cfg room).1.phase = Phase.submit := by
  unfold beginSubmitPhase
  dsimp only
  rw [emitRoomUpdate_fst_phase, dealToHandSize_phase]
  unfold drawGreenForRound
  dsimp only
  split <;> rfl

theorem resolveSubmitPhaseCompletion_phase (room : Room) :
    (resolveSubmitPhaseCompletion room).phase = room.phase ∨
    (resolveSubmitPhaseCompletion room).phase = Phase.judge_pick := by
  unfold resolveSubmitPhaseCompletion
  split
  · exact Or.inl rfl
  · rcases hgj : getJudge room with ⟨room', jo⟩
    have hph : room'.phase = room.phase := by
      have h := getJudge_frame room
      rw [hgj] at h
      dsimp only at h
      rw [h]
    cases jo with
    | none => exact Or.inl hph
    | some judge =>
      dsimp only
      split
      · exact Or.inr rfl
      · exact Or.inl hph

theorem handleJoin_phase (sid : String) (pid : Option String) (name npid : String)
    (room : Room) :
    (handleJoin sid pid name npid room).1.phase = room.phase := by
  unfold handleJoin
  dsimp only
  split
  · exact emitRoomUpdate_fst_phase _
  · split
    · rfl
    · exact emitRoomUpdate_fst_phase _

theorem handleReady_phase (sid : String) (room : Room) :
    (handleReady sid room).1.phase = room.phase := by
  unfold handleReady
  split
  · rfl
  · exact emitRoomUpdate_fst_phase _

theorem handleGameStart_phase (cfg : Config) (sid : String) (room : Room) :
    (handleGameStart cfg sid room).1.phase = room.phase ∨
    (handleGameStart cfg sid room).1.phase = Phase.submit := by
  unfold handleGameStart
  split
  · exact Or.inl rfl
  · split
    · exact Or.inl rfl
    · split
      · exact Or.inl rfl
      · exact Or.inr (beginSubmitPhase_fst_phase _ _)

theorem handleRoundSubmit_phase (sid cid subId : String) (room : Room) :
    (handleRoundSubmit sid cid subId room).1.phase = room.phase ∨
    (handleRoundSubmit sid cid subId room).1.phase = Phase.judge_pick := by
  unfold handleRoundSubmit
  split
  · exact Or.inl rfl
  · cases hp : getPlayerBySocket room sid with
    | none => exact Or.inl rfl
    | some player =>
      dsimp only
      split
      · exact Or.inl rfl
      · cases hjo : (getJudge room).2 with
        | none =>
          dsimp only
          exact Or.inl (getJudge_fst_phase room)
        | some judge =>
          dsimp only
          split
          · exact Or.inl (getJudge_fst_phase room)
          · split
            · exact Or.inl (getJudge_fst_phase room)
            · split
              · exact Or.inl (getJudge_fst_phase room)
              · cases hrc : (removeCardFromHand (getJudge room).1 player.id (strTrim cid)).2 with
                | none =>
                  dsimp only
                  exact Or.inl (by
                    rw [removeCardFromHand_fst_phase, getJudge_fst_phase])
                | some card =>
                  dsimp only
                  rw [emitRoomUpdate_fst_phase]
                  refine (resolveSubmitPhaseCompletion_phase _).imp (fun h => ?_) id
                  rw [h]
                  dsimp only
                  rw [removeCardFromHand_fst_phase, getJudge_fst_phase]

theorem handleJudgePick_phase (cfg : Config) (sid subRaw : String) (room : Room) :
    (handleJudgePick cfg sid subRaw room).1.phase = room.phase ∨
    (handleJudgePick cfg sid subRaw room).1.phase = Phase.score ∨
    (handleJudgePick cfg sid subRaw room).1.phase = Phase.game_over := by
  unfold handleJudgePick
  split
  · exact Or.inl rfl
  · dsimp only
    cases hjo : (getJudge room).2 with
    | none =>
      cases hao : getPlayerBySocket (getJudge room).1 sid with
      | none =>
        dsimp only
        exact Or.inl (getJudge_fst_phase room)
      | some acting =>
        dsimp only
        exact Or.inl (getJudge_fst_phase room)
    | some judge =>
      cases hao : getPlayerBySocket (getJudge room).1 sid with
      | none =>
        dsimp only
        exact Or.inl (getJudge_fst_phase room)
      | some acting =>
        dsimp only
        split
        · exact Or.inl (getJudge_fst_phase room)
        · cases hws : mapGet (getJudge room).1.submissions (strTrim subRaw) with
          | none =>
            dsimp only
            exact Or.inl (getJudge_fst_phase room)
          | some winningSubmission =>
            dsimp only
            cases hwp : getPlayerById (getJudge room).1 winningSubmission.playerId with
            | none =>
              dsimp only
              exact Or.inl (getJudge_fst_phase room)
            | some winner =>
              dsimp only
              split
              · right; right
                rw [emitRoomUpdate_fst_phase]
              · right; left
                rw [emitRoomUpdate_fst_phase, dealToHandSize_phase]

theorem handleRoundNext_phase (cfg : Config) (sid : String) (room : Room) :
    (handleRoundNext cfg sid room).1.phase = room.phase ∨
    (handleRoundNext cfg sid room).1.phase = Phase.submit := by
  unfold handleRoundNext
  split
  · exact Or.inl rfl
  · cases hp : getPlayerBySocket room sid with
    | none => exact Or.inl rfl
    | some acting =>
      dsimp only
      split
      · exact Or.inl rfl
      · exact Or.inr (beginSubmitPhase_fst_phase _ _)

theorem handleRematch_phase (cfg : Config) (sid : String) (room : Room) :
    (handleRematch cfg sid room).1.phase = room.phase ∨
    (handleRematch cfg sid room).1.phase = Phase.submit := by
  unfold handleRematch
  split
  · exact Or.inl rfl
  · cases hp : getPlayerBySocket room sid with
    | none => exact Or.inl rfl
    | some acting =>
      dsimp only
      split
      · exact Or.inl rfl
      · split
        · exact Or.inl rfl
        · exact Or.inr (beginSubmitPhase_fst_phase _ _)

theorem handleDisconnect_phase (pid : String) (room : Room) :
    (handleDisconnect pid room).1.phase = room.phase ∨
    (handleDisconnect pid room).1.phase = Phase.judge_pick := by
  unfold handleDisconnect
  cases hp : getPlayerById room pid with
  | none => exact Or.inl rfl
  | some player =>
    dsimp only
    rw [emitRoomUpdate_fst_phase]
    refine (resolveSubmitPhaseCompletion_phase _).imp (fun h => ?_) id
    rw [h]
    split
    · split
      · rfl
      · split
        · rfl
        · rfl
    · rfl

theorem snapshotPhases_append (a b : List Emit) :
    snapshotPhases (a ++ b) = snapshotPhases a ++ snapshotPhases b := by
  unfold snapshotPhases
  exact List.filterMap_append a b _

theorem snapshotPhases_cons_update (s : PublicSnapshot) (rest : List Emit) :
    snapshotPhases (Emit.update s :: rest) = s.phase :: snapshotPhases rest := rfl

theorem emitPlayerState_no_update (room : Room) (player : Player) :
    snapshotPhases (emitPlayerState room player).2 = [] := by
  unfold emitPlayerState
  split
  · rfl
  · rfl

theorem emitAllPlayerStates_no_update (room : Room) :
    snapshotPhases (emitAllPlayerStates room).2 = [] := by
  unfold emitAllPlayerStates
  suffices hgen : ∀ (ps : List Player) (r : Room) (acc : List Emit),
      snapshotPhases ((ps.foldl (fun acc player =>
        let r := emitPlayerState acc.1 player
        (r.1, acc.2 ++ r.2)) (r, acc)).2) = snapshotPhases acc by
    exact hgen room.players room []
  intro ps
  induction ps with
  | nil =>
    intro r acc
    rw [List.foldl_nil]
  | cons p rest ih =>
    intro r acc
    rw [List.foldl_cons]
    rw [ih]
    rw [snapshotPhases_append, emitPlayerState_no_update, List.append_nil]

theorem emitRoomUpdate_phases (room : Room) :
    snapshotPhases (emitRoomUpdate room).2 = [room.phase] := by
  unfold emitRoomUpdate
  dsimp only
  rw [snapshotPhases_cons_update, emitAllPlayerStates_no_update,
    toPublicRoomState_snd_phase]

theorem beginSubmitPhase_phases (cfg : Config) (room : Room) :
    snapshotPhases (beginSubmitPhase cfg room).2 = [Phase.submit] := by
  unfold beginSubmitPhase
  dsimp only
  rw [emitRoomUpdate_phases, dealToHandSize_phase]
  unfold drawGreenForRound
  dsimp only
  split <;> rfl

theorem initDecks_phase (cfg : Config) (room : Room) :
    (initDecks cfg room).phase = room.phase := rfl

theorem foldl_ensure_phase (ps : List Player) (r : Room) :
    (ps.foldl (fun r entry => (ensurePlayerHand r entry.id).1) r).phase = r.phase := by
  induction ps generalizing r with
  | nil => rw [List.foldl_nil]
  | cons p rest ih =>
    rw [List.foldl_cons, ih, ensurePlayerHand_fst_phase]

/-- C5 (amended): besides the five public phases the engine uses a transient
sixth phase `next_round` during start/next-round/rematch.  No handler leaves a
room in `next_round` that did not start there, and a successful start-game
from the lobby ends in `submit` - but it broadcasts an intermediate snapshot
carrying phase `next_round` before the final `submit` snapshot, so snapshots
are not confined to the five-state set. -/
theorem C5_phase_amended (cfg : Config) (sid : String) (room : Room) :
    (∀ c : Cmd, room.phase ≠ Phase.next_round →
      (handle cfg c room).1.phase ≠ Phase.next_round) ∧
    (room.phase = Phase.lobby →
      ∀ p, getPlayerBySocket room sid = some p → p.id = room.hostPlayerId →
        2 ≤ (getConnectedPlayers room).length →
        (handleGameStart cfg sid room).1.phase = Phase.submit ∧
        snapshotPhases (handleGameStart cfg sid room).2 =
          [Phase.next_round, Phase.submit]) := by
  constructor
  · intro c hne
    cases c with
    | join sid' pid name npid =>
      simp only [handle]
      rw [handleJoin_phase]
      exact hne
    | ready sid' =>
      simp only [handle]
      rw [handleReady_phase]
      exact hne
    | start sid' =>
      simp only [handle]
      rcases handleGameStart_phase cfg sid' room with h | h
      · rw [h]; exact hne
      · rw [h]; simp
    | submit sid' cid subId =>
      simp only [handle]
      rcases handleRoundSubmit_phase sid' cid subId room with h | h
      · rw [h]; exact hne
      · rw [h]; simp
    | judgePick sid' sr =>
      simp only [handle]
      rcases handleJudgePick_phase cfg sid' sr room with h | h | h
      · rw [h]; exact hne
      · rw [h]; simp
      · rw [h]; simp
    | nextRound sid' =>
      simp only [handle]
      rcases handleRoundNext_phase cfg sid' room with h | h
      · rw [h]; exact hne
      · rw [h]; simp
    | rematch sid' =>
      simp only [handle]
      rcases handleRematch_phase cfg sid' room with h | h
      · rw [h]; exact hne
      · rw [h]; simp
    | disconnect pid =>
      simp only [handle]
      rcases handleDisconnect_phase pid room with h | h
      · rw [h]; exact hne
      · rw [h]; simp
  · intro hlobby p hp hhost hcount
    unfold handleGameStart
    rw [hp]
    dsimp only
    rw [if_neg (by simp [hhost])]
    rw [if_neg (by omega)]
    dsimp only
    constructor
    · exact beginSubmitPhase_fst_phase _ _
    · rw [snapshotPhases_append, emitRoomUpdate_phases, beginSubmitPhase_phases,
        dealToHandSize_phase, initDecks_phase, foldl_ensure_phase]
      rfl

/-- Witness for C5 (amended) at a concrete two-player lobby room. -/
theorem C5_phase_amended_witness :
    ((handle cfgW (Cmd.start "sA") roomW5).1.phase ≠ Phase.next_round) ∧
    (handleGameStart cfgW "sA" roomW5).1.phase = Phase.submit ∧
    snapshotPhases (handleGameStart cfgW "sA" roomW5).2 =
      [Phase.next_round, Phase.submit] :=
  ⟨(C5_phase_amended cfgW "sA" roomW5).1 (Cmd.start "sA") (by decide),
    (C5_phase_amended cfgW "sA" roomW5).2 (by decide) pW_A (by decide) (by decide)
      (by decide)⟩

/-- Witness for C7 at a concrete room whose stored judge seat is
disconnected: resolution lands on the connected seat and rewrites the
pointer. -/
theorem C7_judge_resolution_witness :
    (∃ i judge,
      getJudge roomW10 = ({ roomW10 with judgeIndex := i }, some judge) ∧
      roomW10.players.get? i = some judge ∧ judge.connected = true ∧
      ∃ k, i = (roomW10.judgeIndex + k) % roomW10.players.length ∧
        ∀ m, m < k →
          ∀ c, roomW10.players.get? ((roomW10.judgeIndex + m) % roomW10.players.length) = some c →
            c.connected = false) ∧
    (∀ judge, roomW10.judgeIndex < roomW10.players.length →
      roomW10.players.get? roomW10.judgeIndex = some judge → judge.connected = true →
      getJudge roomW10 = (roomW10, some judge)) :=
  C7_judge_resolution roomW10 (by decide)

theorem getPlayerBySocket_getJudge (room : Room) (sid : String) :
    getPlayerBySocket (getJudge room).1 sid = getPlayerBySocket room sid := by
  unfold getPlayerBySocket
  rw [getJudge_frame room]

theorem getJudge_fst_submissions (room : Room) :
    (getJudge room).1.submissions = room.submissions := by
  rw [getJudge_frame room]

/-- C4 counterexample: an error-path command can still mutate the room.  In a
concrete submit-phase room whose stored judge seat 0 is disconnected, the
(resolved) judge B sends round:submit: the engine answers only with an error,
yet `judgeIndex` has moved from 0 to 1, so the room is not exactly as
before. -/
theorem C4_error_mutation_counterexample :
    (handleRoundSubmit "sB" "r1" "subX" roomW4).2 =
      [Emit.err "The judge cannot submit a card."] ∧
    (handleRoundSubmit "sB" "r1" "subX" roomW4).1 ≠ roomW4 ∧
    (handleRoundSubmit "sB" "r1" "subX" roomW4).1.judgeIndex = 1 ∧
    roomW4.judgeIndex = 0 := by
  decide

/-- C4 (amended): every listed phase- or role-violating command answers with a
single error to the issuing connection, and the room is exactly as before
except that the handlers which resolve the judge before detecting the error
(submit by the judge, judge-pick authorization and invalid-winner failures)
may first normalize `judgeIndex` to the first connected seat of the forward
scan; no other field ever changes on an error path. -/
theorem C4_error_frame_amended (cfg : Config) (room : Room) (sid : String)
    (pidOpt : Option String) (name npid cid subId srRaw : String) :
    (∀ p, getPlayerBySocket room sid = some p → p.id ≠ room.hostPlayerId →
      handleGameStart cfg sid room =
        (room, [Emit.err "Only the host can start the game."])) ∧
    (room.phase ≠ Phase.score →
      handleRoundNext cfg sid room =
        (room, [Emit.err "The room is not ready for the next round."])) ∧
    (room.phase = Phase.score →
      (getPlayerBySocket room sid = none ∨
        ∃ p, getPlayerBySocket room sid = some p ∧ p.id ≠ room.hostPlayerId) →
      handleRoundNext cfg sid room =
        (room, [Emit.err "Only the host can advance to the next round."])) ∧
    (room.phase ≠ Phase.game_over →
      handleRematch cfg sid room =
        (room, [Emit.err "Rematch is only available after game over."])) ∧
    (room.phase = Phase.game_over →
      (getPlayerBySocket room sid = none ∨
        ∃ p, getPlayerBySocket room sid = some p ∧ p.id ≠ room.hostPlayerId) →
      handleRematch cfg sid room =
        (room, [Emit.err "Only the host can start a rematch."])) ∧
    (room.phase ≠ Phase.submit →
      handleRoundSubmit sid cid subId room =
        (room, [Emit.err "Submissions are not open."])) ∧
    (room.phase = Phase.submit →
      (getPlayerBySocket room sid = none ∨
        ∃ p, getPlayerBySocket room sid = some p ∧ p.connected = false) →
      handleRoundSubmit sid cid subId room =
        (room, [Emit.err "You are not an active player in this room."])) ∧
    (room.phase = Phase.submit →
      ∀ p judge, getPlayerBySocket room sid = some p → p.connected = true →
        (getJudge room).2 = some judge → p.id = judge.id →
        handleRoundSubmit sid cid subId room =
          ((getJudge room).1, [Emit.err "The judge cannot submit a card."])) ∧
    (room.phase ≠ Phase.judge_pick →
      handleJudgePick cfg sid srRaw room =
        (room, [Emit.err "The room is not in judge pick phase."])) ∧
    (room.phase = Phase.judge_pick →
      ∀ judge acting, (getJudge room).2 = some judge →
        getPlayerBySocket room sid = some acting → judge.id ≠ acting.id →
        handleJudgePick cfg sid srRaw room =
          ((getJudge room).1, [Emit.err "Only the active judge can pick the winner."])) ∧
    (room.phase = Phase.judge_pick →
      ∀ judge acting, (getJudge room).2 = some judge →
        getPlayerBySocket room sid = some acting → judge.id = acting.id →
        mapGet room.submissions (strTrim srRaw) = none →
        handleJudgePick cfg sid srRaw room =
          ((getJudge room).1, [Emit.err "Winner must be one of the submitted cards."])) ∧
    (room.phase ≠ Phase.lobby →
      (pidOpt = none ∨ ∃ t, pidOpt = some t ∧ getPlayerById room t = none) →
      handleJoin sid pidOpt name npid room =
        (room, [Emit.err "Game already started. New joins are limited to the lobby."])) ∧
    ((getJudge room).1 = { room with judgeIndex := (getJudge room).1.judgeIndex }) := by
  refine ⟨?_, ?_, ?_, ?_, ?_, ?_, ?_, ?_, ?_, ?_, ?_, ?_, getJudge_frame room⟩
  · intro p hp hnh
    unfold handleGameStart
    rw [hp]
    dsimp only
    rw [if_pos hnh]
  · intro hph
    unfold handleRoundNext
    rw [if_pos hph]
  · intro hph hcase
    unfold handleRoundNext
    rw [if_neg (by simp [hph])]
    rcases hcase with hnone | ⟨p, hp, hnh⟩
    · rw [hnone]
    · rw [hp]
      dsimp only
      rw [if_pos hnh]
  · intro hph
    unfold handleRematch
    rw [if_pos hph]
  · intro hph hcase
    unfold handleRematch
    rw [if_neg (by simp [hph])]
    rcases hcase with hnone | ⟨p, hp, hnh⟩
    · rw [hnone]
    · rw [hp]
      dsimp only
      rw [if_pos hnh]
  · intro hph
    unfold handleRoundSubmit
    rw [if_pos hph]
  · intro hph hcase
    unfold handleRoundSubmit
    rw [if_neg (by simp [hph])]
    rcases hcase with hnone | ⟨p, hp, hdisc⟩
    · rw [hnone]
    · rw [hp]
      dsimp only
      rw [if_pos (by simp [hdisc])]
  · intro hph p judge hp hpc hjo hid
    unfold handleRoundSubmit
    rw [if_neg (by simp [hph])]
    rw [hp]
    dsimp only
    rw [if_neg (by simp [hpc])]
    rw [hjo]
    dsimp only
    rw [if_pos hid]
  · intro hph
    unfold handleJudgePick
    rw [if_pos hph]
  · intro hph judge acting hjo hacting hne
    unfold handleJudgePick
    rw [if_neg (by simp [hph])]
    dsimp only
    rw [hjo, getPlayerBySocket_getJudge, hacting]
    dsimp only
    rw [if_pos hne]
  · intro hph judge acting hjo hacting heq hws
    unfold handleJudgePick
    rw [if_neg (by simp [hph])]
    dsimp only
    rw [hjo, getPlayerBySocket_getJudge, hacting]
    dsimp only
    rw [if_neg (by simp [heq]), getJudge_fst_submissions, hws]
  · intro hph hcase
    unfold handleJoin
    dsimp only
    rcases hcase with hnone | ⟨t, ht, htnone⟩
    · rw [hnone]
      dsimp only
      rw [if_pos hph]
    · rw [ht]
      dsimp only
      rw [htnone]
      dsimp only
      rw [if_pos hph]

/-- Witness for C4 (amended) at a concrete room: the judge submitting gets
exactly one error and the room is the judge-normalized one. -/
theorem C4_error_frame_amended_witness :
    handleRoundSubmit "sB" "r1" "subX" roomW4 =
      ((getJudge roomW4).1, [Emit.err "The judge cannot submit a card."]) :=
  (C4_error_frame_amended cfgW roomW4 "sB" none "n" "np" "r1" "subX" "sr").2.2.2.2.2.2.2.1
    (by decide) pW_B pW_B (by decide) (by decide) (by decide) (by decide)

theorem mapGet_mapSet_self {β : Type} (m : List (String × β)) (k : String) (v : β) :
    mapGet (mapSet m k v) k = some v := by
  induction m with
  | nil => simp [mapSet, mapGet]
  | cons kv rest ih =>
    obtain ⟨k', v'⟩ := kv
    by_cases h : k' = k
    · simp [mapSet, mapGet, h]
    · simp only [mapSet, mapGet, if_neg h]
      exact ih

theorem mapGet_mapSet_other {β : Type} (m : List (String × β)) (k k' : String)
    (v : β) (hne : k' ≠ k) :
    mapGet (mapSet m k v) k' = mapGet m k' := by
  induction m with
  | nil =>
    simp only [mapSet, mapGet]
    rw [if_neg (fun h => hne h.symm)]
  | cons kv rest ih =>
    obtain ⟨k₀, v₀⟩ := kv
    by_cases h : k₀ = k
    · subst h
      simp only [mapSet, if_pos rfl, mapGet]
      rw [if_neg (fun h2 => hne h2.symm), if_neg (fun h2 => hne h2.symm)]
    · simp only [mapSet, if_neg h, mapGet]
      by_cases h2 : k₀ = k'
      · rw [if_pos h2, if_pos h2]
      · rw [if_neg h2, if_neg h2]
        exact ih

/-- A failed draw leaves both piles empty (the discard is cleared by the
refill or was empty already). -/
theorem drawCard_none_empty (shuffleFn : List Card → List Card)
    (deck discard : List Card)
    (hnone : (drawCard shuffleFn deck discard).2.2 = none) :
    (drawCard shuffleFn deck discard).1 = [] ∧
    (drawCard shuffleFn deck discard).2.1 = [] := by
  unfold drawCard at *
  dsimp only at hnone ⊢
  cases hl : (refillDeckFromDiscard shuffleFn deck discard).1.getLast? with
  | some c =>
    rw [hl] at hnone
    dsimp only at hnone
    exact absurd hnone (by simp)
  | none =>
    dsimp only
    have hdeck : (refillDeckFromDiscard shuffleFn deck discard).1 = [] := by
      cases hd : (refillDeckFromDiscard shuffleFn deck discard).1 with
      | nil => rfl
      | cons a rest =>
        rw [hd] at hl
        exact absurd hl (by simp [List.getLast?])
    refine ⟨hdeck, ?_⟩
    unfold refillDeckFromDiscard at hdeck ⊢
    split at hdeck
    · rename_i hcase
      dsimp only at hdeck
      rw [if_pos hcase]
      dsimp only
      rcases hcase with hpos | hzero
      · rw [hdeck] at hpos
        simp at hpos
      · exact List.length_eq_zero.mp hzero
    · rename_i hcase
      rw [if_neg hcase]

theorem drawCard_nil (shuffleFn : List Card → List Card) :
    drawCard shuffleFn [] [] = ([], [], none) := rfl

/-- `fillHand` on two empty piles changes nothing. -/
theorem fillHand_empty (shuffleFn : List Card → List Card) :
    ∀ fuel hand, fillHand shuffleFn fuel [] [] hand = ([], [], hand) := by
  intro fuel
  cases fuel with
  | zero => intro hand; rfl
  | succ n =>
    intro hand
    rw [fillHand]
    split
    · rfl
    · rfl

/-- `fillHand` either reaches the target hand size or exhausts the red
supply. -/
theorem fillHand_spec (shuffleFn : List Card → List Card) :
    ∀ fuel deck discard hand,
      HAND_SIZE ≤ fuel + hand.length →
      HAND_SIZE ≤ (fillHand shuffleFn fuel deck discard hand).2.2.length ∨
      ((fillHand shuffleFn fuel deck discard hand).1 = [] ∧
        (fillHand shuffleFn fuel deck discard hand).2.1 = []) := by
  intro fuel
  induction fuel with
  | zero =>
    intro deck discard hand hfuel
    left
    simpa using hfuel
  | succ n ih =>
    intro deck discard hand hfuel
    rw [fillHand]
    split
    · dsimp only
      cases hd : (drawCard shuffleFn deck discard).2.2 with
      | some card =>
        dsimp only
        exact ih _ _ (hand ++ [card]) (by simp; omega)
      | none =>
        dsimp only
        right
        exact drawCard_none_empty shuffleFn deck discard hd
    · rename_i hlen
      left
      dsimp only
      omega

/-- First-match lookup ignores a later appended fresh entry. -/
theorem mapGet_append_some {β : Type} (m m₂ : List (String × β)) (k : String)
    (v : β) (h : mapGet m k = some v) :
    mapGet (m ++ m₂) k = some v := by
  induction m with
  | nil => simp [mapGet] at h
  | cons kv rest ih =>
    obtain ⟨k₀, v₀⟩ := kv
    rw [List.cons_append, mapGet]
    rw [mapGet] at h
    by_cases h0 : k₀ = k
    · rwa [if_pos h0] at h ⊢
    · rw [if_neg h0] at h ⊢
      exact ih h

/-- `ensurePlayerHand` never modifies or deletes an existing hand entry. -/
theorem ensurePlayerHand_hands_mono (room : Room) (pid k : String) (v : List Card)
    (h : mapGet room.privateHands k = some v) :
    mapGet (ensurePlayerHand room pid).1.privateHands k = some v := by
  unfold ensurePlayerHand
  cases hm : mapGet room.privateHands pid with
  | some hand => exact h
  | none =>
    dsimp only
    by_cases hk : k = pid
    · subst hk
      rw [h] at hm
      exact absurd hm (by simp)
    · rw [mapGet_mapSet_other room.privateHands pid k [] hk]
      exact h

theorem dealStep_handOk (cfg : Config) (r : Room) (q : Player) :
    HandOk (dealStep cfg r q) q.id ∧
    (∀ pid, HandOk r pid → HandOk (dealStep cfg r q) pid) := by
  obtain ⟨hens, hhens⟩ := ensurePlayerHand_fst r q.id
  have hEst : HandOk (dealStep cfg r q) q.id := by
    refine ⟨(fillHand cfg.shuffleFn HAND_SIZE (ensurePlayerHand r q.id).1.redDeck
      (ensurePlayerHand r q.id).1.redDiscard (ensurePlayerHand r q.id).2).2.2, ?_, ?_⟩
    · exact mapGet_mapSet_self _ _ _
    · exact fillHand_spec cfg.shuffleFn HAND_SIZE
        (ensurePlayerHand r q.id).1.redDeck (ensurePlayerHand r q.id).1.redDiscard
        (ensurePlayerHand r q.id).2 (by omega)
  refine ⟨hEst, ?_⟩
  intro pid hP
  by_cases hpid : pid = q.id
  · subst hpid
    exact hEst
  · obtain ⟨h₀, hg₀, hprop⟩ := hP
    refine ⟨h₀, ?_, ?_⟩
    · show mapGet (mapSet (ensurePlayerHand r q.id).1.privateHands q.id _) pid = some h₀
      rw [mapGet_mapSet_other _ _ _ _ hpid]
      exact ensurePlayerHand_hands_mono r q.id pid h₀ hg₀
    · rcases hprop with hlen | ⟨hdk, hdd⟩
      · exact Or.inl hlen
      · right
        have hr₁dk : (ensurePlayerHand r q.id).1.redDeck = [] := by
          rw [hhens]
          exact hdk
        have hr₁dd : (ensurePlayerHand r q.id).1.redDiscard = [] := by
          rw [hhens]
          exact hdd
        have hfill : fillHand cfg.shuffleFn HAND_SIZE
            (ensurePlayerHand r q.id).1.redDeck (ensurePlayerHand r q.id).1.redDiscard
            (ensurePlayerHand r q.id).2 =
            ([], [], (ensurePlayerHand r q.id).2) := by
          rw [hr₁dk, hr₁dd, fillHand_empty]
        constructor
        · show (fillHand cfg.shuffleFn HAND_SIZE _ _ _).1 = []
          rw [hfill]
        · show (fillHand cfg.shuffleFn HAND_SIZE _ _ _).2.1 = []
          rw [hfill]

theorem foldl_dealStep_handOk (cfg : Config) :
    ∀ (ps : List Player) (r : Room),
      (∀ pid, HandOk r pid → HandOk (ps.foldl (dealStep cfg) r) pid) ∧
      (∀ q ∈ ps, HandOk (ps.foldl (dealStep cfg) r) q.id) := by
  intro ps
  induction ps with
  | nil =>
    intro r
    refine ⟨fun pid h => ?_, by simp⟩
    rwa [List.foldl_nil]
  | cons q rest ih =>
    intro r
    rw [List.foldl_cons]
    obtain ⟨hEst, hPres⟩ := dealStep_handOk cfg r q
    obtain ⟨ihPres, ihMem⟩ := ih (dealStep cfg r q)
    constructor
    · intro pid h
      exact ihPres pid (hPres pid h)
    · intro p hp
      rcases List.mem_cons.mp hp with heq | hmem
      · subst heq
        exact ihPres p.id hEst
      · exact ihMem p hmem

theorem dealToHandSize_handOk (cfg : Config) (room : Room) :
    ∀ p ∈ room.players, HandOk (dealToHandSize cfg room) p.id :=
  fun p hp => (foldl_dealStep_handOk cfg room.players room).2 p hp

theorem emitPlayerState_hands_mono (room : Room) (q : Player) (k : String)
    (v : List Card) (h : mapGet room.privateHands k = some v) :
    mapGet (emitPlayerState room q).1.privateHands k = some v := by
  unfold emitPlayerState
  split
  · exact h
  · exact ensurePlayerHand_hands_mono room q.id k v h

theorem emitAllPlayerStates_hands_mono (room : Room) (k : String) (v : List Card)
    (h : mapGet room.privateHands k = some v) :
    mapGet (emitAllPlayerStates room).1.privateHands k = some v := by
  unfold emitAllPlayerStates
  suffices hgen : ∀ (ps : List Player) (r : Room) (acc : List Emit),
      mapGet r.privateHands k = some v →
      mapGet ((ps.foldl (fun acc player =>
        let r := emitPlayerState acc.1 player
        (r.1, acc.2 ++ r.2)) (r, acc)).1).privateHands k = some v by
    exact hgen room.players room [] h
  intro ps
  induction ps with
  | nil =>
    intro r acc hr
    rwa [List.foldl_nil]
  | cons q rest ih =>
    intro r acc hr
    rw [List.foldl_cons]
    exact ih _ _ (emitPlayerState_hands_mono r q k v hr)

theorem toPublicRoomState_fst_hands (room : Room) :
    (toPublicRoomState room).1.privateHands = room.privateHands := by
  rw [toPublicRoomState_fst, getJudge_frame room]

theorem emitRoomUpdate_handOk (room : Room) (pid : String)
    (h : HandOk room pid) : HandOk (emitRoomUpdate room).1 pid := by
  obtain ⟨hand, hg, hprop⟩ := h
  obtain ⟨j, hh, heq⟩ := emitRoomUpdate_fst room
  refine ⟨hand, ?_, ?_⟩
  · show mapGet (emitRoomUpdate room).1.privateHands pid = some hand
    unfold emitRoomUpdate
    dsimp only
    apply emitAllPlayerStates_hands_mono
    rw [toPublicRoomState_fst_hands]
    exact hg
  · rcases hprop with hlen | ⟨hdk, hdd⟩
    · exact Or.inl hlen
    · right
      rw [heq]
      exact ⟨hdk, hdd⟩

theorem emitRoomUpdate_fst_cond (room : Room) :
    ∃ j h, (emitRoomUpdate room).1 = { room with judgeIndex := j, privateHands := h } ∧
      (room.judgeIndex < room.players.length →
        ∀ c, room.players.get? room.judgeIndex = some c → c.connected = true →
          j = room.judgeIndex) ∧
      ((∀ p ∈ room.players, p.connected = false) → j = room.judgeIndex) := by
  obtain ⟨hh, hhh⟩ := emitAllPlayerStates_fst (toPublicRoomState room).1
  refine ⟨(getJudge room).1.judgeIndex, hh, ?_, ?_, ?_⟩
  · unfold emitRoomUpdate
    dsimp only
    rw [hhh, toPublicRoomState_fst, getJudge_frame room]
  · intro hlt c hg hc
    rw [getJudge_stored room c hlt hg hc]
  · intro hnone
    rw [getJudge_none room hnone]

theorem beginSubmitPhase_eq_emit_deal (cfg : Config) (room : Room) :
    beginSubmitPhase cfg room = emitRoomUpdate (dealToHandSize cfg
      { room with
        phase := Phase.submit
        submissions := []
        lastWinnerId := none
        winningSubmissionId := none
        greenDeck := (drawCard cfg.shuffleFn room.greenDeck
          (room.greenDiscard ++ room.currentGreenCard.toList)).1
        greenDiscard := (drawCard cfg.shuffleFn room.greenDeck
          (room.greenDiscard ++ room.currentGreenCard.toList)).2.1
        currentGreenCard := (drawCard cfg.shuffleFn room.greenDeck
          (room.greenDiscard ++ room.currentGreenCard.toList)).2.2 }) := by
  unfold beginSubmitPhase drawGreenForRound
  dsimp only
  cases hcg : room.currentGreenCard with
  | none =>
    simp only [Option.toList_none, List.append_nil]
  | some c =>
    simp only [Option.toList_some]

theorem emit_deal_fst_cond (cfg : Config) (r : Room) :
    ∃ j h rdk rdd,
      (emitRoomUpdate (dealToHandSize cfg r)).1 =
        { r with
          judgeIndex := j
          privateHands := h
          redDeck := rdk
          redDiscard := rdd } ∧
      (r.judgeIndex < r.players.length →
        ∀ c, r.players.get? r.judgeIndex = some c → c.connected = true →
          j = r.judgeIndex) ∧
      ((∀ p ∈ r.players, p.connected = false) → j = r.judgeIndex) := by
  obtain ⟨rd, rdd, hd, hdeal⟩ := dealToHandSize_eq cfg r
  obtain ⟨j, h, hemit, hc1, hc2⟩ := emitRoomUpdate_fst_cond (dealToHandSize cfg r)
  refine ⟨j, h, rd, rdd, ?_, ?_, ?_⟩
  · rw [hemit, hdeal]
  · intro hlt c hg hc
    have hres := hc1 (by rw [hdeal]; exact hlt) c (by rw [hdeal]; exact hg) hc
    rw [hdeal] at hres
    exact hres
  · intro hnone
    have hres := hc2 (by rw [hdeal]; exact hnone)
    rw [hdeal] at hres
    exact hres

theorem beginSubmitPhase_fst_cond (cfg : Config) (room : Room) :
    ∃ j h rdk rdd,
      (beginSubmitPhase cfg room).1 =
        { room with
          phase := Phase.submit
          submissions := []
          lastWinnerId := none
          winningSubmissionId := none
          judgeIndex := j
          privateHands := h
          redDeck := rdk
          redDiscard := rdd
          greenDeck := (drawCard cfg.shuffleFn room.greenDeck
            (room.greenDiscard ++ room.currentGreenCard.toList)).1
          greenDiscard := (drawCard cfg.shuffleFn room.greenDeck
            (room.greenDiscard ++ room.currentGreenCard.toList)).2.1
          currentGreenCard := (drawCard cfg.shuffleFn room.greenDeck
            (room.greenDiscard ++ room.currentGreenCard.toList)).2.2 } ∧
      (room.judgeIndex < room.players.length →
        ∀ c, room.players.get? room.judgeIndex = some c → c.connected = true →
          j = room.judgeIndex) ∧
      ((∀ p ∈ room.players, p.connected = false) → j = room.judgeIndex) ∧
      (∀ p ∈ room.players, HandOk (beginSubmitPhase cfg room).1 p.id) := by
  rw [beginSubmitPhase_eq_emit_deal]
  obtain ⟨j, h, rdk, rdd, heq, hc1, hc2⟩ := emit_deal_fst_cond cfg
    { room with
      phase := Phase.submit
      submissions := []
      lastWinnerId := none
      winningSubmissionId := none
      greenDeck := (drawCard cfg.shuffleFn room.greenDeck
        (room.greenDiscard ++ room.currentGreenCard.toList)).1
      greenDiscard := (drawCard cfg.shuffleFn room.greenDeck
        (room.greenDiscard ++ room.currentGreenCard.toList)).2.1
      currentGreenCard := (drawCard cfg.shuffleFn room.greenDeck
        (room.greenDiscard ++ room.currentGreenCard.toList)).2.2 }
  refine ⟨j, h, rdk, rdd, ?_, hc1, hc2, ?_⟩
  · rw [heq]
  · intro p hp
    exact emitRoomUpdate_handOk _ _ (dealToHandSize_handOk cfg _ p hp)

theorem getNextJudgeIndex_spec (room : Room) (hne : room.players ≠ []) :
    (∃ c, room.players.get? (getNextJudgeIndex room) = some c ∧ c.connected = true ∧
      ∃ k, 1 ≤ k ∧
        getNextJudgeIndex room = (room.judgeIndex + k) % room.players.length ∧
        ∀ m, 1 ≤ m → m < k →
          ∀ c', room.players.get? ((room.judgeIndex + m) % room.players.length) = some c' →
            c'.connected = false) ∨
    ((∀ p ∈ room.players, p.connected = false) ∧
      getNextJudgeIndex room = room.judgeIndex) := by
  have hlen : 0 < room.players.length := List.length_pos.mpr hne
  by_cases hconn : ∃ p ∈ room.players, p.connected = true
  · left
    obtain ⟨p, hp, hpc⟩ := hconn
    obtain ⟨q, hq⟩ := List.get?_of_mem hp
    have hqlt : q < room.players.length := (List.get?_eq_some.mp hq).1
    obtain ⟨k₀, hk₀, hk₀q⟩ :=
      exists_scan_offset room.players.length room.judgeIndex q hlen hqlt
    have hex : ∃ k, 1 ≤ k ∧ k < 1 + room.players.length ∧
        ∃ c, room.players.get? ((room.judgeIndex + k) % room.players.length) = some c ∧
          c.connected = true := by
      by_cases hz : k₀ = 0
      · refine ⟨room.players.length, hlen, by omega, p, ?_, hpc⟩
        have h1 : (room.judgeIndex + room.players.length) % room.players.length =
            (room.judgeIndex + 0) % room.players.length := by
          rw [Nat.add_zero, Nat.add_mod_right]
        rw [h1]
        rw [hz] at hk₀q
        rw [hk₀q]
        exact hq
      · exact ⟨k₀, by omega, by omega, p, by rw [hk₀q]; exact hq, hpc⟩
    obtain ⟨i, c, hscan⟩ :=
      judgeScan_complete room.players room.judgeIndex room.players.length 1 hlen hex
    obtain ⟨hget, hcc, k, hk1, hk2, hik, hfirst⟩ :=
      judgeScan_sound room.players room.judgeIndex room.players.length 1 i c hscan
    have hnj : getNextJudgeIndex room = i := by
      unfold getNextJudgeIndex
      rw [if_neg (by omega), hscan]
    rw [hnj]
    exact ⟨c, hget, hcc, k, hk1, hik,
      fun m hm1 hm2 c' hc' => hfirst m hm1 hm2 c' hc'⟩
  · right
    have hnone : ∀ p ∈ room.players, p.connected = false := by
      intro p hp
      by_contra hc
      exact hconn ⟨p, hp, by simpa using hc⟩
    refine ⟨hnone, ?_⟩
    unfold getNextJudgeIndex
    rw [if_neg (by omega), judgeScan_none room.players room.judgeIndex hnone]

/-- C8: a successful next-round command (host, score phase) advances the
judge index to the next connected seat in rotation order, skipping
disconnected seats (unchanged when every player is disconnected), increments
the round counter, moves the current green card to the green discard pile and
draws the new green card from the resulting piles, redeals every hand up to
the target size (best effort until the red supply runs dry), clears the
submissions map and winner data, leaves the player list and host untouched,
and sets the phase to submit. -/
theorem C8_next_round_effects (cfg : Config) (sid : String) (room : Room)
    (acting : Player)
    (hphase : room.phase = Phase.score)
    (hact : getPlayerBySocket room sid = some acting)
    (hhost : acting.id = room.hostPlayerId) :
    (handleRoundNext cfg sid room).1.phase = Phase.submit ∧
    (handleRoundNext cfg sid room).1.round = room.round + 1 ∧
    (handleRoundNext cfg sid room).1.judgeIndex = getNextJudgeIndex room ∧
    ((∃ c, room.players.get? (getNextJudgeIndex room) = some c ∧
        c.connected = true ∧
        ∃ k, 1 ≤ k ∧
          getNextJudgeIndex room = (room.judgeIndex + k) % room.players.length ∧
          ∀ m, 1 ≤ m → m < k →
            ∀ c', room.players.get? ((room.judgeIndex + m) % room.players.length) =
                some c' → c'.connected = false) ∨
      ((∀ p ∈ room.players, p.connected = false) ∧
        getNextJudgeIndex room = room.judgeIndex)) ∧
    (handleRoundNext cfg sid room).1.submissions = [] ∧
    (handleRoundNext cfg sid room).1.lastWinnerId = none ∧
    (handleRoundNext cfg sid room).1.winningSubmissionId = none ∧
    (handleRoundNext cfg sid room).1.greenDeck =
      (drawCard cfg.shuffleFn room.greenDeck
        (room.greenDiscard ++ room.currentGreenCard.toList)).1 ∧
    (handleRoundNext cfg sid room).1.greenDiscard =
      (drawCard cfg.shuffleFn room.greenDeck
        (room.greenDiscard ++ room.currentGreenCard.toList)).2.1 ∧
    (handleRoundNext cfg sid room).1.currentGreenCard =
      (drawCard cfg.shuffleFn room.greenDeck
        (room.greenDiscard ++ room.currentGreenCard.toList)).2.2 ∧
    (handleRoundNext cfg sid room).1.players = room.players ∧
    (handleRoundNext cfg sid room).1.hostPlayerId = room.hostPlayerId ∧
    (∀ p ∈ room.players, HandOk (handleRoundNext cfg sid room).1 p.id) := by
  have hne : room.players ≠ [] := by
    intro he
    unfold getPlayerBySocket at hact
    rw [he] at hact
    simp at hact
  have hlen : 0 < room.players.length := List.length_pos.mpr hne
  have hjspec := getNextJudgeIndex_spec room hne
  unfold handleRoundNext
  rw [if_neg (by simp [hphase]), hact]
  dsimp only
  rw [if_neg (by simp [hhost])]
  dsimp only
  obtain ⟨j₁, h₁, hupd, hcond1, hcond2⟩ := emitRoomUpdate_fst_cond
    { room with
      judgeIndex := getNextJudgeIndex room
      round := room.round + 1
      phase := Phase.next_round }
  have hj₁ : j₁ = getNextJudgeIndex room := by
    rcases hjspec with ⟨c, hcg, hcc, k, hk1, hke, hfirst⟩ | ⟨hnone, hsame⟩
    · exact hcond1 (by rw [hke]; exact Nat.mod_lt _ hlen) c hcg hcc
    · exact hcond2 hnone
  subst hj₁
  rw [hupd]
  dsimp only
  obtain ⟨j₂, h₂, rdk, rdd, hbeg, hbc1, hbc2, hhok⟩ := beginSubmitPhase_fst_cond cfg
    { room with
      judgeIndex := getNextJudgeIndex room
      round := room.round + 1
      phase := Phase.next_round
      privateHands := h₁ }
  have hj₂ : j₂ = getNextJudgeIndex room := by
    rcases hjspec with ⟨c, hcg, hcc, k, hk1, hke, hfirst⟩ | ⟨hnone, hsame⟩
    · exact hbc1 (by rw [hke]; exact Nat.mod_lt _ hlen) c hcg hcc
    · exact hbc2 hnone
  subst hj₂
  rw [hbeg] at hhok ⊢
  refine ⟨rfl, rfl, rfl, hjspec, rfl, rfl, rfl, rfl, rfl, rfl, rfl, rfl, ?_⟩
  intro p hp
  exact hhok p hp

/-- Witness for C8 at a concrete two-player score-phase room. -/
theorem C8_next_round_effects_witness :
    (handleRoundNext cfgW "sA" roomW8).1.phase = Phase.submit ∧
    (handleRoundNext cfgW "sA" roomW8).1.round = roomW8.round + 1 ∧
    (handleRoundNext cfgW "sA" roomW8).1.judgeIndex = getNextJudgeIndex roomW8 ∧
    ((∃ c, roomW8.players.get? (getNextJudgeIndex roomW8) = some c ∧
        c.connected = true ∧
        ∃ k, 1 ≤ k ∧
          getNextJudgeIndex roomW8 = (roomW8.judgeIndex + k) % roomW8.players.length ∧
          ∀ m, 1 ≤ m → m < k →
            ∀ c', roomW8.players.get? ((roomW8.judgeIndex + m) % roomW8.players.length) =
                some c' → c'.connected = false) ∨
      ((∀ p ∈ roomW8.players, p.connected = false) ∧
        getNextJudgeIndex roomW8 = roomW8.judgeIndex)) ∧
    (handleRoundNext cfgW "sA" roomW8).1.submissions = [] ∧
    (handleRoundNext cfgW "sA" roomW8).1.lastWinnerId = none ∧
    (handleRoundNext cfgW "sA" roomW8).1.winningSubmissionId = none ∧
    (handleRoundNext cfgW "sA" roomW8).1.greenDeck =
      (drawCard cfgW.shuffleFn roomW8.greenDeck
        (roomW8.greenDiscard ++ roomW8.currentGreenCard.toList)).1 ∧
    (handleRoundNext cfgW "sA" roomW8).1.greenDiscard =
      (drawCard cfgW.shuffleFn roomW8.greenDeck
        (roomW8.greenDiscard ++ roomW8.currentGreenCard.toList)).2.1 ∧
    (handleRoundNext cfgW "sA" roomW8).1.currentGreenCard =
      (drawCard cfgW.shuffleFn roomW8.greenDeck
        (roomW8.greenDiscard ++ roomW8.currentGreenCard.toList)).2.2 ∧
    (handleRoundNext cfgW "sA" roomW8).1.players = roomW8.players ∧
    (handleRoundNext cfgW "sA" roomW8).1.hostPlayerId = roomW8.hostPlayerId ∧
    (∀ p ∈ roomW8.players, HandOk (handleRoundNext cfgW "sA" roomW8).1 p.id) :=
  C8_next_round_effects cfgW "sA" roomW8 pW_A (by decide) (by decide) (by decide)

theorem eraseIdx_perm {α : Type} (l : List α) :
    ∀ (i : Nat) (a : α), l.get? i = some a → l.Perm (a :: l.eraseIdx i) := by
  induction l with
  | nil =>
    intro i a h
    simp [List.get?] at h
  | cons b tl ih =>
    intro i a h
    cases i with
    | zero =>
      rw [List.get?] at h
      injection h with h
      subst h
      exact List.Perm.refl _
    | succ n =>
      rw [List.get?] at h
      have hstep := ih n a h
      show (b :: tl).Perm (a :: b :: tl.eraseIdx n)
      exact (List.Perm.cons b hstep).trans (List.Perm.swap a b _)

theorem handsCards_mapSet_perm (m : List (String × List Card)) :
    ∀ (k : String) (v old : List Card), mapGet m k = some old →
      (handsCards (mapSet m k v) ++ old).Perm (v ++ handsCards m) := by
  induction m with
  | nil =>
    intro k v old h
    simp [mapGet] at h
  | cons kv rest ih =>
    intro k v old h
    obtain ⟨k₀, v₀⟩ := kv
    rw [mapGet] at h
    by_cases h0 : k₀ = k
    · rw [if_pos h0] at h
      injection h with h
      subst h
      simp only [mapSet, if_pos h0, handsCards, List.map_cons, List.flatten_cons]
      rw [List.append_assoc]
      exact List.Perm.append_left v List.perm_append_comm
    · rw [if_neg h0] at h
      have hstep := ih k v old h
      unfold handsCards at hstep
      simp only [mapSet, if_neg h0, handsCards, List.map_cons, List.flatten_cons]
      rw [List.append_assoc]
      refine List.Perm.trans (List.Perm.append_left v₀ hstep) ?_
      rw [← List.append_assoc, ← List.append_assoc]
      exact List.Perm.append_right _ List.perm_append_comm

theorem handsCards_mapSet_fresh (m : List (String × List Card)) :
    ∀ (k : String), mapGet m k = none →
      handsCards (mapSet m k []) = handsCards m := by
  induction m with
  | nil =>
    intro k h
    simp [mapSet, handsCards]
  | cons kv rest ih =>
    intro k h
    obtain ⟨k₀, v₀⟩ := kv
    rw [mapGet] at h
    by_cases h0 : k₀ = k
    · rw [if_pos h0] at h
      exact absurd h (by simp)
    · rw [if_neg h0] at h
      simp only [mapSet, if_neg h0, handsCards, List.map_cons, List.flatten_cons]
      have hr := ih k h
      unfold handsCards at hr
      rw [hr]

theorem handsCards_ensure (r : Room) (pid : String) :
    handsCards (ensurePlayerHand r pid).1.privateHands = handsCards r.privateHands := by
  unfold ensurePlayerHand
  cases hm : mapGet r.privateHands pid with
  | some hand => rfl
  | none =>
    dsimp only
    exact handsCards_mapSet_fresh r.privateHands pid hm

theorem ensure_get (r : Room) (pid : String) :
    mapGet (ensurePlayerHand r pid).1.privateHands pid = some (ensurePlayerHand r pid).2 := by
  unfold ensurePlayerHand
  cases hm : mapGet r.privateHands pid with
  | some hand => exact hm
  | none =>
    dsimp only
    exact mapGet_mapSet_self _ _ _

/-- Drawing conserves the cards across deck, discard and the drawn card. -/
theorem drawCard_perm (shuffleFn : List Card → List Card)
    (hperm : ∀ l, (shuffleFn l).Perm l) (deck discard : List Card) :
    ((drawCard shuffleFn deck discard).1 ++ (drawCard shuffleFn deck discard).2.1 ++
      (drawCard shuffleFn deck discard).2.2.toList).Perm (deck ++ discard) := by
  unfold drawCard
  dsimp only
  have hrefill : ((refillDeckFromDiscard shuffleFn deck discard).1 ++
      (refillDeckFromDiscard shuffleFn deck discard).2).Perm (deck ++ discard) := by
    unfold refillDeckFromDiscard
    split
    · exact List.Perm.refl _
    · dsimp only
      rw [List.append_nil]
      exact List.Perm.append_left deck (hperm discard)
  cases hl : (refillDeckFromDiscard shuffleFn deck discard).1.getLast? with
  | none =>
    dsimp only
    rw [Option.toList_none, List.append_nil]
    exact hrefill
  | some c =>
    dsimp only
    rw [Option.toList_some]
    have hd : (refillDeckFromDiscard shuffleFn deck discard).1 =
        (refillDeckFromDiscard shuffleFn deck discard).1.dropLast ++ [c] := by
      conv_lhs => rw [← List.dropLast_append_getLast? c hl]
    rw [List.append_assoc]
    refine List.Perm.trans (List.Perm.append_left _ List.perm_append_comm) ?_
    rw [← List.append_assoc, ← hd]
    exact hrefill

theorem drawCard_ms (shuffleFn : List Card → List Card)
    (hperm : ∀ l, (shuffleFn l).Perm l) (deck discard : List Card) :
    ((drawCard shuffleFn deck discard).1 : Multiset Card) +
      ((drawCard shuffleFn deck discard).2.1 : Multiset Card) +
      ((drawCard shuffleFn deck discard).2.2.toList : Multiset Card) =
    (deck : Multiset Card) + (discard : Multiset Card) := by
  have h := Multiset.coe_eq_coe.mpr (drawCard_perm shuffleFn hperm deck discard)
  simpa only [← Multiset.coe_add] using h

theorem fillHand_ms (shuffleFn : List Card → List Card)
    (hperm : ∀ l, (shuffleFn l).Perm l) :
    ∀ fuel deck discard hand,
      ((fillHand shuffleFn fuel deck discard hand).1 : Multiset Card) +
        ((fillHand shuffleFn fuel deck discard hand).2.1 : Multiset Card) +
        ((fillHand shuffleFn fuel deck discard hand).2.2 : Multiset Card) =
      (deck : Multiset Card) + (discard : Multiset Card) + (hand : Multiset Card) := by
  intro fuel
  induction fuel with
  | zero =>
    intro deck discard hand
    rfl
  | succ n ih =>
    intro deck discard hand
    rw [fillHand]
    split
    · dsimp only
      cases hd : (drawCard shuffleFn deck discard).2.2 with
      | some card =>
        dsimp only
        have h1 := ih (drawCard shuffleFn deck discard).1
          (drawCard shuffleFn deck discard).2.1 (hand ++ [card])
        have h2 := drawCard_ms shuffleFn hperm deck discard
        rw [hd] at h2
        simp only [Option.toList_some] at h2
        rw [h1, ← h2]
        simp only [← Multiset.coe_add]
        abel
      | none =>
        dsimp only
        have h2 := drawCard_ms shuffleFn hperm deck discard
        rw [hd] at h2
        simp only [Option.toList_none, Multiset.coe_nil, add_zero] at h2
        rw [h2]
    · rfl

theorem handsCards_mapSet_ms (m : List (String × List Card)) (k : String)
    (v old : List Card) (h : mapGet m k = some old) :
    ((handsCards (mapSet m k v)) : Multiset Card) + (old : Multiset Card) =
    (v : Multiset Card) + (handsCards m : Multiset Card) := by
  have hp := Multiset.coe_eq_coe.mpr (handsCards_mapSet_perm m k v old h)
  simpa only [← Multiset.coe_add] using hp

theorem dealStep_ms (cfg : Config) (hperm : ∀ l, (cfg.shuffleFn l).Perm l)
    (r : Room) (q : Player) :
    ((dealStep cfg r q).redDeck : Multiset Card) +
      ((dealStep cfg r q).redDiscard : Multiset Card) +
      (handsCards (dealStep cfg r q).privateHands : Multiset Card) =
    (r.redDeck : Multiset Card) + (r.redDiscard : Multiset Card) +
      (handsCards r.privateHands : Multiset Card) := by
  obtain ⟨hh, hhe⟩ := ensurePlayerHand_fst r q.id
  have hget := ensure_get r q.id
  have hhc := handsCards_ensure r q.id
  have hfill := fillHand_ms cfg.shuffleFn hperm HAND_SIZE
    (ensurePlayerHand r q.id).1.redDeck (ensurePlayerHand r q.id).1.redDiscard
    (ensurePlayerHand r q.id).2
  have hms := handsCards_mapSet_ms (ensurePlayerHand r q.id).1.privateHands q.id
    (fillHand cfg.shuffleFn HAND_SIZE (ensurePlayerHand r q.id).1.redDeck
      (ensurePlayerHand r q.id).1.redDiscard (ensurePlayerHand r q.id).2).2.2
    (ensurePlayerHand r q.id).2 hget
  have hDeck : (ensurePlayerHand r q.id).1.redDeck = r.redDeck := by rw [hhe]
  have hDisc : (ensurePlayerHand r q.id).1.redDiscard = r.redDiscard := by rw [hhe]
  rw [hhc] at hms
  unfold dealStep
  dsimp only
  rw [hDeck, hDisc] at hfill hms ⊢
  refine (add_left_inj ((ensurePlayerHand r q.id).2 : Multiset Card)).mp ?_
  rw [add_assoc]
  rw [hms]
  rw [← add_assoc]
  rw [hfill]
  abel

theorem dealToHandSize_ms (cfg : Config) (hperm : ∀ l, (cfg.shuffleFn l).Perm l)
    (room : Room) :
    ((dealToHandSize cfg room).redDeck : Multiset Card) +
      ((dealToHandSize cfg room).redDiscard : Multiset Card) +
      (handsCards (dealToHandSize cfg room).privateHands : Multiset Card) =
    (room.redDeck : Multiset Card) + (room.redDiscard : Multiset Card) +
      (handsCards room.privateHands : Multiset Card) := by
  unfold dealToHandSize
  suffices hgen : ∀ (ps : List Player) (r : Room),
      ((ps.foldl (dealStep cfg) r).redDeck : Multiset Card) +
        ((ps.foldl (dealStep cfg) r).redDiscard : Multiset Card) +
        (handsCards (ps.foldl (dealStep cfg) r).privateHands : Multiset Card) =
      (r.redDeck : Multiset Card) + (r.redDiscard : Multiset Card) +
        (handsCards r.privateHands : Multiset Card) by
    exact hgen room.players room
  intro ps
  induction ps with
  | nil =>
    intro r
    rw [List.foldl_nil]
  | cons q rest ih =>
    intro r
    rw [List.foldl_cons, ih (dealStep cfg r q), dealStep_ms cfg hperm r q]

theorem emitPlayerState_handsCards (room : Room) (q : Player) :
    handsCards (emitPlayerState room q).1.privateHands = handsCards room.privateHands := by
  unfold emitPlayerState
  split
  · rfl
  · exact handsCards_ensure room q.id

theorem emitAllPlayerStates_handsCards (room : Room) :
    handsCards (emitAllPlayerStates room).1.privateHands =
      handsCards room.privateHands := by
  unfold emitAllPlayerStates
  suffices hgen : ∀ (ps : List Player) (r : Room) (acc : List Emit),
      handsCards ((ps.foldl (fun acc player =>
        let r := emitPlayerState acc.1 player
        (r.1, acc.2 ++ r.2)) (r, acc)).1).privateHands = handsCards r.privateHands by
    exact hgen room.players room []
  intro ps
  induction ps with
  | nil =>
    intro r acc
    rw [List.foldl_nil]
  | cons q rest ih =>
    intro r acc
    rw [List.foldl_cons]
    rw [ih (emitPlayerState r q).1 (acc ++ (emitPlayerState r q).2)]
    exact emitPlayerState_handsCards r q

theorem emitRoomUpdate_handsCards (room : Room) :
    handsCards (emitRoomUpdate room).1.privateHands =
      handsCards room.privateHands := by
  unfold emitRoomUpdate
  dsimp only
  rw [emitAllPlayerStates_handsCards, toPublicRoomState_fst_hands]

theorem emitRoomUpdate_redZone (room : Room) :
    redZone (emitRoomUpdate room).1 = redZone room := by
  obtain ⟨j, h, heq⟩ := emitRoomUpdate_fst room
  unfold redZone
  rw [emitRoomUpdate_handsCards]
  rw [heq]

theorem emitRoomUpdate_greenZone (room : Room) :
    greenZone (emitRoomUpdate room).1 = greenZone room := by
  obtain ⟨j, h, heq⟩ := emitRoomUpdate_fst room
  unfold greenZone
  rw [heq]

theorem resolveSubmitPhaseCompletion_redZone (room : Room) :
    redZone (resolveSubmitPhaseCompletion room) = redZone room := by
  unfold resolveSubmitPhaseCompletion
  split
  · rfl
  · rename_i hsubmit
    have hsubmit' : room.phase = Phase.submit := by
      by_contra hc
      exact hsubmit (by simpa using hc)
    rcases hgj : getJudge room with ⟨room', jo⟩
    have hfr : room' = { room with judgeIndex := room'.judgeIndex } := by
      have hf := getJudge_frame room
      rw [hgj] at hf
      dsimp only at hf
      exact hf
    cases jo with
    | none =>
      dsimp only
      unfold redZone
      rw [hfr]
    | some judge =>
      dsimp only
      split
      · unfold redZone
        rw [hfr]
        dsimp only
        rw [hsubmit']
        simp
      · unfold redZone
        rw [hfr]

theorem resolveSubmitPhaseCompletion_greenZone (room : Room) :
    greenZone (resolveSubmitPhaseCompletion room) = greenZone room := by
  unfold resolveSubmitPhaseCompletion
  split
  · rfl
  · rcases hgj : getJudge room with ⟨room', jo⟩
    have hfr : room' = { room with judgeIndex := room'.judgeIndex } := by
      have hf := getJudge_frame room
      rw [hgj] at hf
      dsimp only at hf
      exact hf
    cases jo with
    | none =>
      dsimp only
      unfold greenZone
      rw [hfr]
    | some judge =>
      dsimp only
      split
      · unfold greenZone
        rw [hfr]
      · unfold greenZone
        rw [hfr]

theorem removeCardFromHand_fst (r : Room) (pid cid : String) :
    ∃ h, (removeCardFromHand r pid cid).1 = { r with privateHands := h } := by
  obtain ⟨h₀, hh₀⟩ := ensurePlayerHand_fst r pid
  unfold removeCardFromHand
  dsimp only
  rw [hh₀]
  dsimp only
  split
  · split
    · exact ⟨_, rfl⟩
    · exact ⟨h₀, rfl⟩
  · exact ⟨h₀, rfl⟩

theorem removeCardFromHand_ms (r : Room) (pid cid : String) (card : Card)
    (h : (removeCardFromHand r pid cid).2 = some card) :
    (handsCards (removeCardFromHand r pid cid).1.privateHands : Multiset Card) +
      ([card] : Multiset Card) = (handsCards r.privateHands : Multiset Card) := by
  unfold removeCardFromHand at h ⊢
  revert h
  dsimp only
  split
  next cardIndex hidx =>
    split
    next card₀ hget2 =>
      intro h
      dsimp only at h
      injection h with h
      subst h
      dsimp only
      have hmsms := handsCards_mapSet_ms (ensurePlayerHand r pid).1.privateHands pid
        ((ensurePlayerHand r pid).2.eraseIdx cardIndex) (ensurePlayerHand r pid).2
        (ensure_get r pid)
      rw [handsCards_ensure] at hmsms
      have hperase : ((ensurePlayerHand r pid).2 : Multiset Card) =
          ([card₀] : Multiset Card) +
            ((ensurePlayerHand r pid).2.eraseIdx cardIndex : Multiset Card) := by
        have hp := Multiset.coe_eq_coe.mpr (eraseIdx_perm (ensurePlayerHand r pid).2
          cardIndex card₀ hget2)
        rw [hp]
        rfl
      refine (add_left_inj ((ensurePlayerHand r pid).2 : Multiset Card)).mp ?_
      rw [add_assoc]
      rw [show (([card₀] : Multiset Card) + ((ensurePlayerHand r pid).2 : Multiset Card)) =
        (((ensurePlayerHand r pid).2 : Multiset Card) + ([card₀] : Multiset Card)) from
        add_comm _ _]
      rw [← add_assoc, hmsms, hperase]
      abel
    · intro h
      simp at h
  · intro h
    simp at h

theorem removeCardFromHand_none_handsCards (r : Room) (pid cid : String)
    (h : (removeCardFromHand r pid cid).2 = none) :
    handsCards (removeCardFromHand r pid cid).1.privateHands =
      handsCards r.privateHands := by
  unfold removeCardFromHand at h ⊢
  revert h
  dsimp only
  split
  · split
    · intro h
      simp at h
    · intro _
      exact handsCards_ensure r pid
  · intro _
    exact handsCards_ensure r pid

theorem submissionCards_mapSet_fresh (subs : List (String × SubmissionState)) :
    ∀ (k : String) (v : SubmissionState), mapHas subs k = false →
      submissionCards (mapSet subs k v) = submissionCards subs ++ [v.card] := by
  induction subs with
  | nil =>
    intro k v _
    rfl
  | cons kv rest ih =>
    intro k v h
    obtain ⟨k₀, v₀⟩ := kv
    unfold mapHas mapGet at h
    by_cases h0 : k₀ = k
    · rw [if_pos h0] at h
      simp at h
    · rw [if_neg h0] at h
      simp only [mapSet, if_neg h0, submissionCards, List.map_cons]
      have hrest := ih k v h
      unfold submissionCards at hrest
      rw [hrest]
      rfl

theorem foldl_ensure_handsCards (ps : List Player) (r : Room) :
    handsCards (ps.foldl (fun r entry => (ensurePlayerHand r entry.id).1) r).privateHands =
      handsCards r.privateHands := by
  induction ps generalizing r with
  | nil => rw [List.foldl_nil]
  | cons p rest ih =>
    rw [List.foldl_cons, ih, handsCards_ensure]

theorem dealToHandSize_redZone (cfg : Config)
    (hperm : ∀ l, (cfg.shuffleFn l).Perm l) (r : Room) :
    redZone (dealToHandSize cfg r) = redZone r := by
  obtain ⟨rd, rdd, h, heq⟩ := dealToHandSize_eq cfg r
  have hms := dealToHandSize_ms cfg hperm r
  unfold redZone
  have hph : (dealToHandSize cfg r).phase = r.phase := by rw [heq]
  have hsub : (dealToHandSize cfg r).submissions = r.submissions := by rw [heq]
  rw [hph, hsub]
  rw [show ∀ a b c d : Multiset Card, a + b + c + d = (a + b + c) + d from
    fun a b c d => rfl, hms]

theorem beginSubmitPhase_redZone (cfg : Config)
    (hperm : ∀ l, (cfg.shuffleFn l).Perm l) (room : Room) :
    redZone (beginSubmitPhase cfg room).1 =
      (room.redDeck : Multiset Card) + (room.redDiscard : Multiset Card) +
        (handsCards room.privateHands : Multiset Card) := by
  rw [beginSubmitPhase_eq_emit_deal, emitRoomUpdate_redZone, dealToHandSize_redZone cfg hperm]
  unfold redZone
  dsimp only
  simp [submissionCards]

theorem beginSubmitPhase_greenZone (cfg : Config)
    (hperm : ∀ l, (cfg.shuffleFn l).Perm l) (room : Room) :
    greenZone (beginSubmitPhase cfg room).1 = greenZone room := by
  obtain ⟨j, h, rdk, rdd, heq, -, -, -⟩ := beginSubmitPhase_fst_cond cfg room
  unfold greenZone
  rw [heq]
  dsimp only
  have hdm := drawCard_ms cfg.shuffleFn hperm room.greenDeck
    (room.greenDiscard ++ room.currentGreenCard.toList)
  rw [hdm]
  simp only [Multiset.coe_add]
  rw [List.append_assoc]

theorem redZone_congr (a b : Room) (h1 : a.redDeck = b.redDeck)
    (h2 : a.redDiscard = b.redDiscard) (h3 : a.privateHands = b.privateHands)
    (h4 : a.submissions = b.submissions) (h5 : a.phase = b.phase) :
    redZone a = redZone b := by
  unfold redZone
  rw [h1, h2, h3, h4, h5]

theorem greenZone_congr (a b : Room) (h1 : a.greenDeck = b.greenDeck)
    (h2 : a.greenDiscard = b.greenDiscard)
    (h3 : a.currentGreenCard = b.currentGreenCard) :
    greenZone a = greenZone b := by
  unfold greenZone
  rw [h1, h2, h3]

theorem redZone_live (r : Room)
    (h : r.phase = Phase.submit ∨ r.phase = Phase.judge_pick) :
    redZone r = (r.redDeck : Multiset Card) + (r.redDiscard : Multiset Card) +
      (handsCards r.privateHands : Multiset Card) +
      (submissionCards r.submissions : Multiset Card) := by
  unfold redZone
  rw [if_pos h]

theorem getJudge_fst_redZone (room : Room) :
    redZone (getJudge room).1 = redZone room := by
  rw [getJudge_frame room]
  exact redZone_congr _ _ rfl rfl rfl rfl rfl

theorem getJudge_fst_greenZone (room : Room) :
    greenZone (getJudge room).1 = greenZone room := by
  rw [getJudge_frame room]
  exact greenZone_congr _ _ rfl rfl rfl

theorem dealToHandSize_greenZone (cfg : Config) (r : Room) :
    greenZone (dealToHandSize cfg r) = greenZone r := by
  obtain ⟨rd, rdd, h, heq⟩ := dealToHandSize_eq cfg r
  unfold greenZone
  rw [heq]

theorem mapValues_card_eq (subs : List (String × SubmissionState)) :
    (mapValues subs).map (fun (s : SubmissionState) => s.card) = submissionCards subs := by
  unfold mapValues submissionCards
  rw [List.map_map]
  rfl

theorem emitRoomUpdate_redDeckDiscardHands (room : Room) :
    ((emitRoomUpdate room).1.redDeck : Multiset Card) +
      ((emitRoomUpdate room).1.redDiscard : Multiset Card) +
      (handsCards (emitRoomUpdate room).1.privateHands : Multiset Card) =
    (room.redDeck : Multiset Card) + (room.redDiscard : Multiset Card) +
      (handsCards room.privateHands : Multiset Card) := by
  obtain ⟨j, hh, hemit⟩ := emitRoomUpdate_fst room
  rw [emitRoomUpdate_handsCards]
  rw [hemit]

theorem removeCardFromHand_none_redZone (r : Room) (pid cid : String)
    (h : (removeCardFromHand r pid cid).2 = none) :
    redZone (removeCardFromHand r pid cid).1 = redZone r := by
  obtain ⟨hh, hfr⟩ := removeCardFromHand_fst r pid cid
  have hhc := removeCardFromHand_none_handsCards r pid cid h
  unfold redZone
  rw [hhc, hfr]

theorem removeCardFromHand_greenZone (r : Room) (pid cid : String) :
    greenZone (removeCardFromHand r pid cid).1 = greenZone r := by
  obtain ⟨hh, hfr⟩ := removeCardFromHand_fst r pid cid
  unfold greenZone
  rw [hfr]

theorem submitSuccess_redZone (r₁ : Room) (pid subId cid : String) (card : Card)
    (hphase : r₁.phase = Phase.submit)
    (hfresh : mapHas r₁.submissions subId = false)
    (hcard : (removeCardFromHand r₁ pid cid).2 = some card) :
    redZone (emitRoomUpdate (resolveSubmitPhaseCompletion
      { (removeCardFromHand r₁ pid cid).1 with
        submissions := mapSet (removeCardFromHand r₁ pid cid).1.submissions subId
          { id := subId, playerId := pid, card := card } })).1 = redZone r₁ := by
  rw [emitRoomUpdate_redZone, resolveSubmitPhaseCompletion_redZone]
  obtain ⟨hh, hfr⟩ := removeCardFromHand_fst r₁ pid cid
  have hms := removeCardFromHand_ms r₁ pid cid card hcard
  rw [hfr] at hms
  dsimp only at hms
  rw [redZone_live _ (Or.inl ((show ({ (removeCardFromHand r₁ pid cid).1 with
      submissions := mapSet (removeCardFromHand r₁ pid cid).1.submissions subId
        { id := subId, playerId := pid, card := card } } : Room).phase =
      (removeCardFromHand r₁ pid cid).1.phase from rfl).trans
      ((removeCardFromHand_fst_phase r₁ pid cid).trans hphase)))]
  rw [redZone_live r₁ (Or.inl hphase)]
  dsimp only
  rw [hfr]
  dsimp only
  rw [submissionCards_mapSet_fresh r₁.submissions subId _ hfresh]
  rw [← hms]
  simp only [← Multiset.coe_add]
  abel

theorem submitSuccess_greenZone (r₁ : Room) (pid subId cid : String) (card : Card) :
    greenZone (emitRoomUpdate (resolveSubmitPhaseCompletion
      { (removeCardFromHand r₁ pid cid).1 with
        submissions := mapSet (removeCardFromHand r₁ pid cid).1.submissions subId
          { id := subId, playerId := pid, card := card } })).1 = greenZone r₁ := by
  rw [emitRoomUpdate_greenZone, resolveSubmitPhaseCompletion_greenZone]
  obtain ⟨hh, hfr⟩ := removeCardFromHand_fst r₁ pid cid
  unfold greenZone
  rw [hfr]

theorem pickScore_redZone (cfg : Config) (hperm : ∀ l, (cfg.shuffleFn l).Perm l)
    (r₁ : Room) (subId wid : String) (hphase : r₁.phase = Phase.judge_pick) :
    redZone (emitRoomUpdate (dealToHandSize cfg
      { r₁ with
        redDiscard := r₁.redDiscard ++
          (mapValues r₁.submissions).map (fun (s : SubmissionState) => s.card)
        winningSubmissionId := some subId
        players := updateFirstPlayer r₁.players wid (fun q =>
          { q with score := q.score + 1 })
        lastWinnerId := some wid
        phase := Phase.score })).1 = redZone r₁ := by
  rw [emitRoomUpdate_redZone, dealToHandSize_redZone cfg hperm]
  unfold redZone
  dsimp only
  rw [hphase]
  rw [if_neg (show ¬(Phase.score = Phase.submit ∨ Phase.score = Phase.judge_pick) from
    by decide)]
  rw [if_pos (Or.inr rfl)]
  rw [mapValues_card_eq]
  simp only [← Multiset.coe_add]
  abel

theorem pickOver_zones (r₁ : Room) (wid : String)
    (hphase : r₁.phase = Phase.judge_pick) :
    redZone (emitRoomUpdate
      { r₁ with
        redDiscard := r₁.redDiscard ++
          (mapValues r₁.submissions).map (fun (s : SubmissionState) => s.card)
        winningSubmissionId := none
        players := updateFirstPlayer r₁.players wid (fun q =>
          { q with score := q.score + 1 })
        lastWinnerId := some wid
        phase := Phase.game_over
        submissions := []
        currentGreenCard := none }).1 = redZone r₁ ∧
    (emitRoomUpdate
      { r₁ with
        redDiscard := r₁.redDiscard ++
          (mapValues r₁.submissions).map (fun (s : SubmissionState) => s.card)
        winningSubmissionId := none
        players := updateFirstPlayer r₁.players wid (fun q =>
          { q with score := q.score + 1 })
        lastWinnerId := some wid
        phase := Phase.game_over
        submissions := []
        currentGreenCard := none }).1.phase = Phase.game_over ∧
    greenZone (emitRoomUpdate
      { r₁ with
        redDiscard := r₁.redDiscard ++
          (mapValues r₁.submissions).map (fun (s : SubmissionState) => s.card)
        winningSubmissionId := none
        players := updateFirstPlayer r₁.players wid (fun q =>
          { q with score := q.score + 1 })
        lastWinnerId := some wid
        phase := Phase.game_over
        submissions := []
        currentGreenCard := none }).1 +
      (r₁.currentGreenCard.toList : Multiset Card) = greenZone r₁ := by
  refine ⟨?_, ?_, ?_⟩
  · rw [emitRoomUpdate_redZone]
    unfold redZone
    dsimp only
    rw [hphase]
    rw [if_neg (show ¬(Phase.game_over = Phase.submit ∨
        Phase.game_over = Phase.judge_pick) from by decide)]
    rw [if_pos (Or.inr rfl)]
    rw [mapValues_card_eq]
    simp only [← Multiset.coe_add]
    abel
  · rw [emitRoomUpdate_fst_phase]
  · rw [emitRoomUpdate_greenZone]
    unfold greenZone
    dsimp only
    simp

theorem handleJoin_zones (sid : String) (pid : Option String) (name npid : String)
    (room : Room) :
    redZone (handleJoin sid pid name npid room).1 = redZone room ∧
    greenZone (handleJoin sid pid name npid room).1 = greenZone room := by
  unfold handleJoin
  dsimp only
  split
  · constructor
    · rw [emitRoomUpdate_redZone]
      exact redZone_congr _ _ rfl rfl rfl rfl rfl
    · rw [emitRoomUpdate_greenZone]
      exact greenZone_congr _ _ rfl rfl rfl
  · split
    · exact ⟨rfl, rfl⟩
    · constructor
      · rw [emitRoomUpdate_redZone]
        exact redZone_congr _ _ rfl rfl rfl rfl rfl
      · rw [emitRoomUpdate_greenZone]
        exact greenZone_congr _ _ rfl rfl rfl

theorem handleReady_zones (sid : String) (room : Room) :
    redZone (handleReady sid room).1 = redZone room ∧
    greenZone (handleReady sid room).1 = greenZone room := by
  unfold handleReady
  split
  · exact ⟨rfl, rfl⟩
  · constructor
    · rw [emitRoomUpdate_redZone]
      exact redZone_congr _ _ rfl rfl rfl rfl rfl
    · rw [emitRoomUpdate_greenZone]
      exact greenZone_congr _ _ rfl rfl rfl

theorem handleDisconnect_zones (pid : String) (room : Room) :
    redZone (handleDisconnect pid room).1 = redZone room ∧
    greenZone (handleDisconnect pid room).1 = greenZone room := by
  unfold handleDisconnect
  dsimp only
  split
  · exact ⟨rfl, rfl⟩
  · constructor
    · rw [emitRoomUpdate_redZone, resolveSubmitPhaseCompletion_redZone]
      split
      · split
        · rfl
        · split
          · rfl
          · rfl
      · rfl
    · rw [emitRoomUpdate_greenZone, resolveSubmitPhaseCompletion_greenZone]
      split
      · split
        · rfl
        · split
          · rfl
          · rfl
      · rfl

theorem handleRoundSubmit_zones (sid rawCardId subId : String) (room : Room)
    (hfresh : mapHas room.submissions subId = false) :
    redZone (handleRoundSubmit sid rawCardId subId room).1 = redZone room ∧
    greenZone (handleRoundSubmit sid rawCardId subId room).1 = greenZone room := by
  unfold handleRoundSubmit
  dsimp only
  split
  · exact ⟨rfl, rfl⟩
  · rename_i hph
    have hph' : room.phase = Phase.submit := not_not.mp hph
    have hph₁ : (getJudge room).1.phase = Phase.submit :=
      (getJudge_fst_phase room).trans hph'
    have hfresh₁ : mapHas (getJudge room).1.submissions subId = false := by
      rw [getJudge_fst_submissions room]
      exact hfresh
    split
    · exact ⟨rfl, rfl⟩
    · rename_i player hplayer
      split
      · exact ⟨rfl, rfl⟩
      · split
        · exact ⟨getJudge_fst_redZone room, getJudge_fst_greenZone room⟩
        · rename_i judge hjudge
          split
          · exact ⟨getJudge_fst_redZone room, getJudge_fst_greenZone room⟩
          · split
            · exact ⟨getJudge_fst_redZone room, getJudge_fst_greenZone room⟩
            · split
              · exact ⟨getJudge_fst_redZone room, getJudge_fst_greenZone room⟩
              · split
                · rename_i hnone
                  exact ⟨(removeCardFromHand_none_redZone _ _ _ hnone).trans
                      (getJudge_fst_redZone room),
                    (removeCardFromHand_greenZone _ _ _).trans
                      (getJudge_fst_greenZone room)⟩
                · rename_i card hcard
                  exact ⟨(submitSuccess_redZone (getJudge room).1 player.id subId
                        (strTrim rawCardId) card hph₁ hfresh₁ hcard).trans
                      (getJudge_fst_redZone room),
                    (submitSuccess_greenZone (getJudge room).1 player.id subId
                        (strTrim rawCardId) card).trans
                      (getJudge_fst_greenZone room)⟩

theorem handleJudgePick_zones (cfg : Config) (hperm : ∀ l, (cfg.shuffleFn l).Perm l)
    (sid rawSubmissionId : String) (room : Room) :
    redZone (handleJudgePick cfg sid rawSubmissionId room).1 = redZone room ∧
    (greenZone (handleJudgePick cfg sid rawSubmissionId room).1 = greenZone room ∨
      ((handleJudgePick cfg sid rawSubmissionId room).1.phase = Phase.game_over ∧
        greenZone (handleJudgePick cfg sid rawSubmissionId room).1 +
          (room.currentGreenCard.toList : Multiset Card) = greenZone room)) := by
  unfold handleJudgePick
  dsimp only
  split
  · exact ⟨rfl, Or.inl rfl⟩
  · rename_i hph
    have hph' : room.phase = Phase.judge_pick := not_not.mp hph
    have hph₁ : (getJudge room).1.phase = Phase.judge_pick :=
      (getJudge_fst_phase room).trans hph'
    split
    · split
      · exact ⟨getJudge_fst_redZone room, Or.inl (getJudge_fst_greenZone room)⟩
      · split
        · exact ⟨getJudge_fst_redZone room, Or.inl (getJudge_fst_greenZone room)⟩
        · split
          · exact ⟨getJudge_fst_redZone room, Or.inl (getJudge_fst_greenZone room)⟩
          · rename_i winner hwinner
            split
            · obtain ⟨hr, hp, hg⟩ := pickOver_zones (getJudge room).1 winner.id hph₁
              refine ⟨hr.trans (getJudge_fst_redZone room), Or.inr ⟨hp, ?_⟩⟩
              have hcur : (getJudge room).1.currentGreenCard = room.currentGreenCard := by
                rw [getJudge_frame room]
              rw [hcur] at hg
              rw [getJudge_fst_greenZone room] at hg
              exact hg
            · refine ⟨?_, Or.inl ?_⟩
              · exact (pickScore_redZone cfg hperm (getJudge room).1
                  (strTrim rawSubmissionId) winner.id hph₁).trans
                  (getJudge_fst_redZone room)
              · exact ((emitRoomUpdate_greenZone _).trans
                  (dealToHandSize_greenZone cfg _)).trans
                  (getJudge_fst_greenZone room)
    · exact ⟨getJudge_fst_redZone room, Or.inl (getJudge_fst_greenZone room)⟩

theorem handleRoundNext_zones (cfg : Config) (hperm : ∀ l, (cfg.shuffleFn l).Perm l)
    (sid : String) (room : Room) :
    redZone (handleRoundNext cfg sid room).1 = redZone room ∧
    greenZone (handleRoundNext cfg sid room).1 = greenZone room := by
  unfold handleRoundNext
  dsimp only
  split
  · exact ⟨rfl, rfl⟩
  · rename_i hph
    have hph' : room.phase = Phase.score := not_not.mp hph
    split
    · exact ⟨rfl, rfl⟩
    · split
      · exact ⟨rfl, rfl⟩
      · constructor
        · rw [beginSubmitPhase_redZone cfg hperm, emitRoomUpdate_redDeckDiscardHands]
          unfold redZone
          dsimp only
          rw [hph']
          rw [if_neg (show ¬(Phase.score = Phase.submit ∨
              Phase.score = Phase.judge_pick) from by decide)]
          rw [add_zero]
        · rw [beginSubmitPhase_greenZone cfg hperm, emitRoomUpdate_greenZone]
          rfl

theorem startCore_zones (cfg : Config) (hperm : ∀ l, (cfg.shuffleFn l).Perm l)
    (r₁ : Room) (hh : handsCards r₁.privateHands = []) :
    redZone (beginSubmitPhase cfg (emitRoomUpdate (dealToHandSize cfg (initDecks cfg
        (r₁.players.foldl (fun r entry => (ensurePlayerHand r entry.id).1) r₁)))).1).1 =
      (cfg.redPool : Multiset Card) ∧
    greenZone (beginSubmitPhase cfg (emitRoomUpdate (dealToHandSize cfg (initDecks cfg
        (r₁.players.foldl (fun r entry => (ensurePlayerHand r entry.id).1) r₁)))).1).1 =
      (cfg.greenPool : Multiset Card) := by
  constructor
  · rw [beginSubmitPhase_redZone cfg hperm, emitRoomUpdate_redDeckDiscardHands,
      dealToHandSize_ms cfg hperm]
    unfold initDecks
    dsimp only
    rw [foldl_ensure_handsCards, hh]
    have hσ := Multiset.coe_eq_coe.mpr (hperm cfg.redPool)
    rw [hσ]
    simp
  · rw [beginSubmitPhase_greenZone cfg hperm, emitRoomUpdate_greenZone,
      dealToHandSize_greenZone]
    unfold greenZone initDecks
    dsimp only
    have hσ := Multiset.coe_eq_coe.mpr (hperm cfg.greenPool)
    rw [hσ]
    simp

set_option maxHeartbeats 2000000 in
theorem handleGameStart_zones (cfg : Config) (hperm : ∀ l, (cfg.shuffleFn l).Perm l)
    (sid : String) (room : Room) :
    (redZone (handleGameStart cfg sid room).1 = redZone room ∧
      greenZone (handleGameStart cfg sid room).1 = greenZone room) ∨
    (redZone (handleGameStart cfg sid room).1 = (cfg.redPool : Multiset Card) ∧
      greenZone (handleGameStart cfg sid room).1 = (cfg.greenPool : Multiset Card)) := by
  unfold handleGameStart
  dsimp only
  split
  · exact Or.inl ⟨rfl, rfl⟩
  · split
    · exact Or.inl ⟨rfl, rfl⟩
    · split
      · exact Or.inl ⟨rfl, rfl⟩
      · exact Or.inr (startCore_zones cfg hperm
          { room with
            round := 1
            phase := Phase.next_round
            judgeIndex := 0
            submissions := []
            lastWinnerId := none
            winningSubmissionId := none
            privateHands := []
            players := room.players.map (fun (entry : Player) =>
              { entry with score := 0, ready := false }) } rfl)

set_option maxHeartbeats 2000000 in
theorem handleRematch_zones (cfg : Config) (hperm : ∀ l, (cfg.shuffleFn l).Perm l)
    (sid : String) (room : Room) :
    (redZone (handleRematch cfg sid room).1 = redZone room ∧
      greenZone (handleRematch cfg sid room).1 = greenZone room) ∨
    (redZone (handleRematch cfg sid room).1 = (cfg.redPool : Multiset Card) ∧
      greenZone (handleRematch cfg sid room).1 = (cfg.greenPool : Multiset Card)) := by
  unfold handleRematch
  dsimp only
  split
  · exact Or.inl ⟨rfl, rfl⟩
  · split
    · exact Or.inl ⟨rfl, rfl⟩
    · split
      · exact Or.inl ⟨rfl, rfl⟩
      · split
        · exact Or.inl ⟨rfl, rfl⟩
        · exact Or.inr (startCore_zones cfg hperm
            { room with
              round := 1
              phase := Phase.next_round
              judgeIndex := 0
              submissions := []
              lastWinnerId := none
              winningSubmissionId := none
              privateHands := []
              players := room.players.map (fun (entry : Player) =>
                { entry with score := 0, ready := false }) } rfl)

/-- C2 fails as stated, on both colors.  Red: the score transition moves every
submitted card to the red discard pile but keeps the submission entries, so the
union of deck, discard, hands and submissions counts those cards twice (the
redeal then pulls the discarded copies back into a hand): at `roomC2a` the
union equals the catalog with distinct ids before the judge picks, and contains
duplicate ids afterwards.  Green: the game-over transition clears
`currentGreenCard` without discarding it, so the green union (deck, discard,
current card) loses a card of the catalog at `roomC2b`. -/
theorem C2_conservation_counterexample :
    redUnionAll roomC2a = (cfgW.redPool : Multiset Card) ∧
    (Multiset.map Card.id (redUnionAll roomC2a)).Nodup ∧
    ¬ (Multiset.map Card.id
        (redUnionAll (handleJudgePick cfgW "sA" "s1" roomC2a).1)).Nodup ∧
    greenZone roomC2b = (cfgW.greenPool : Multiset Card) ∧
    greenZone (handleJudgePick cfgW "sA" "s1" roomC2b).1 ≠
      (cfgW.greenPool : Multiset Card) := by
  decide

/-- C2 (amended): card conservation as the code actually maintains it, for
every command and any shuffle that permutes its input.  Red cards: counting
submission cards only while submissions are live (submit and judge-pick
phases, matching the score/game-over transitions that move them to the
discard pile while retaining the entries for display), the union of red deck,
red discard and all hands is preserved by every handler, except that a
successful start or rematch re-establishes it as exactly the configured red
catalog.  Green cards: the union of green deck, green discard and the current
green card is preserved, except that the game-over transition drops the
current green card from the union (the bug exhibited by the counterexample)
and a successful start or rematch re-establishes the configured green
catalog. -/
theorem C2_conservation_amended (cfg : Config)
    (hperm : ∀ l, (cfg.shuffleFn l).Perm l) (c : Cmd) (room : Room)
    (hfresh : freshSub c room) :
    (redZone (handle cfg c room).1 = redZone room ∨
      redZone (handle cfg c room).1 = (cfg.redPool : Multiset Card)) ∧
    (greenZone (handle cfg c room).1 = greenZone room ∨
      ((handle cfg c room).1.phase = Phase.game_over ∧
        greenZone (handle cfg c room).1 +
          (room.currentGreenCard.toList : Multiset Card) = greenZone room) ∨
      greenZone (handle cfg c room).1 = (cfg.greenPool : Multiset Card)) := by
  cases c with
  | join sid pid name npid =>
    obtain ⟨h1, h2⟩ := handleJoin_zones sid pid name npid room
    exact ⟨Or.inl h1, Or.inl h2⟩
  | ready sid =>
    obtain ⟨h1, h2⟩ := handleReady_zones sid room
    exact ⟨Or.inl h1, Or.inl h2⟩
  | start sid =>
    rcases handleGameStart_zones cfg hperm sid room with ⟨h1, h2⟩ | ⟨h1, h2⟩
    · exact ⟨Or.inl h1, Or.inl h2⟩
    · exact ⟨Or.inr h1, Or.inr (Or.inr h2)⟩
  | submit sid cardId subId =>
    obtain ⟨h1, h2⟩ := handleRoundSubmit_zones sid cardId subId room hfresh
    exact ⟨Or.inl h1, Or.inl h2⟩
  | judgePick sid subId =>
    obtain ⟨h1, h2⟩ := handleJudgePick_zones cfg hperm sid subId room
    refine ⟨Or.inl h1, ?_⟩
    rcases h2 with h2 | h2
    · exact Or.inl h2
    · exact Or.inr (Or.inl h2)
  | nextRound sid =>
    obtain ⟨h1, h2⟩ := handleRoundNext_zones cfg hperm sid room
    exact ⟨Or.inl h1, Or.inl h2⟩
  | rematch sid =>
    rcases handleRematch_zones cfg hperm sid room with ⟨h1, h2⟩ | ⟨h1, h2⟩
    · exact ⟨Or.inl h1, Or.inl h2⟩
    · exact ⟨Or.inr h1, Or.inr (Or.inr h2)⟩
  | disconnect pid =>
    obtain ⟨h1, h2⟩ := handleDisconnect_zones pid room
    exact ⟨Or.inl h1, Or.inl h2⟩

/-- Witness for the amended C2 at a concrete submit command in a concrete
submit-phase room, with the identity shuffle. -/
theorem C2_conservation_amended_witness :
    (∀ l, (cfgW.shuffleFn l).Perm l) ∧
    freshSub (Cmd.submit "sB" "r1" "sub1") roomW1 ∧
    ((redZone (handle cfgW (Cmd.submit "sB" "r1" "sub1") roomW1).1 = redZone roomW1 ∨
      redZone (handle cfgW (Cmd.submit "sB" "r1" "sub1") roomW1).1 =
        (cfgW.redPool : Multiset Card)) ∧
    (greenZone (handle cfgW (Cmd.submit "sB" "r1" "sub1") roomW1).1 = greenZone roomW1 ∨
      ((handle cfgW (Cmd.submit "sB" "r1" "sub1") roomW1).1.phase = Phase.game_over ∧
        greenZone (handle cfgW (Cmd.submit "sB" "r1" "sub1") roomW1).1 +
          (roomW1.currentGreenCard.toList : Multiset Card) = greenZone roomW1) ∨
      greenZone (handle cfgW (Cmd.submit "sB" "r1" "sub1") roomW1).1 =
        (cfgW.greenPool : Multiset Card))) :=
  ⟨fun l => List.Perm.refl l,
    (by decide : mapHas roomW1.submissions "sub1" = false),
    C2_conservation_amended cfgW (fun l => List.Perm.refl l)
      (Cmd.submit "sB" "r1" "sub1") roomW1
      (by decide : mapHas roomW1.submissions "sub1" = false)⟩

end Pears
